import Mathlib

/-! # Asset registry chaincode (`chaincode/asset-transfer/asset-transfer.go`)

A shallow embedding of the `SmartContract` operations of the asset-transfer
chaincode, followed by theorems about them.

* The Go struct `Asset` becomes a Lean structure.
* A Go `string` is a sequence of bytes, not necessarily valid UTF-8. It is
  represented by the Lean string whose characters are those bytes (code points
  below 256), so that ASCII text, which is all the text of the source, is
  represented by itself, and the Go string `"org\xff"` by the Lean string
  `"org\xff"`. Equality, concatenation and byte order are those of Go.
* The hosting platform (`contractapi.TransactionContextInterface`) is taken as a
  parameter: a client identity (`GetID`, `GetAttributeValue`) and a chaincode
  stub (`GetState`, `PutState`, `DelState`, `GetStateByRange`) acting on an
  explicit world state of type `σ`.
* `encoding/json` is taken as a parameter too (`Codec`); the laws assumed of
  it say what the library does with strings: invalid UTF-8 is replaced by
  U+FFFD when a string is encoded.
* Every operation takes the world state and returns its Go result together with
  the world state after the invocation.
* A Go `error` is a message; the error kind attached to every message is the
  classification of section 7 of the specification.
-/

namespace AssetTransfer

/-! ## Data model -/

/-- Serialized form of a record, as stored in the world state (`[]byte`). -/
abbrev Bytes := List Nat

/-- The Go struct `Asset`. -/
structure Asset where
  ID : String
  Owner : String
  Value : Int
  CreatedBy : String
deriving DecidableEq, Repr

/-- Modelled from the spec: the error kinds of section 7. The source only builds
error messages; each message site is tagged with the kind the specification
gives to it. -/
inductive ErrorKind where
  | AuthorizationError
  | NotFoundError
  | ConflictError
  | SerializationError
  | StoreError
  | IdentityError
deriving DecidableEq, Repr

/-- An error returned by an operation: the kind and the Go error message. -/
structure Error where
  kind : ErrorKind
  message : String
deriving DecidableEq, Repr

deriving instance DecidableEq for Except

/-! ## External collaborators, taken as parameters -/

/-- The two functions of `encoding/json` the chaincode calls, at type `Asset`.
An error is the library's message. -/
structure Codec where
  Marshal : Asset → Except String Bytes
  Unmarshal : Bytes → Except String Asset

/-- The part of `cid.ClientIdentity` the chaincode calls. `GetAttributeValue`
returns the Go pair `(value, found)` or an error. -/
structure ClientIdentity where
  GetID : Except String String
  GetAttributeValue : String → Except String (String × Bool)

/-- One result of a range scan (`queryresult.KV`). -/
structure KV where
  Key : String
  Value : Bytes
deriving DecidableEq, Repr

/-- A state query iterator: the successive results of `Next()` until `HasNext()`
is false. -/
abbrev StateQueryIterator := List (Except String KV)

/-- The part of `shim.ChaincodeStubInterface` the chaincode calls, acting on a
world state of type `σ`. `GetState` returns `none` for Go's `nil`. -/
structure ChaincodeStub (σ : Type) where
  GetState : σ → String → Except String (Option Bytes)
  PutState : σ → String → Bytes → Except String σ
  DelState : σ → String → Except String σ
  GetStateByRange : σ → String → String → Except String StateQueryIterator

/-- The invocation context (`contractapi.TransactionContextInterface`). -/
structure TransactionContext (σ : Type) where
  GetClientIdentity : ClientIdentity
  GetStub : ChaincodeStub σ

/-- The Go result of an operation together with the world state afterwards. -/
abbrev Outcome (σ : Type) (α : Type) := Except Error α × σ

/-- The error kind of a result, if it is an error. -/
def errorKind {α : Type} : Except Error α → Option ErrorKind
  | .error e => some e.kind
  | .ok _ => none

/-- Whether a result is a success. -/
def succeeded {α : Type} : Except Error α → Bool
  | .error _ => false
  | .ok _ => true

/-! ## The operations of `SmartContract` -/

section Operations

variable {σ : Type}

/-- `AssetExists` (lines 199-206). -/
def AssetExists (ctx : TransactionContext σ) (s : σ) (id : String) : Outcome σ Bool :=
  match ctx.GetStub.GetState s id with
  | .error err => (.error ⟨.StoreError, "failed to read from world state: " ++ err⟩, s)
  | .ok assetJSON => (.ok assetJSON.isSome, s)

/-- `ReadAssetInternal` (lines 208-224). -/
def ReadAssetInternal (J : Codec) (ctx : TransactionContext σ) (s : σ) (id : String) :
    Outcome σ Asset :=
  match ctx.GetStub.GetState s id with
  | .error err => (.error ⟨.StoreError, "failed to read from world state: " ++ err⟩, s)
  | .ok none => (.error ⟨.NotFoundError, "the asset " ++ id ++ " does not exist"⟩, s)
  | .ok (some assetJSON) =>
    match J.Unmarshal assetJSON with
    | .error err => (.error ⟨.SerializationError, err⟩, s)
    | .ok asset => (.ok asset, s)

/-- `CreateAsset` (lines 26-64). -/
def CreateAsset (J : Codec) (ctx : TransactionContext σ) (s : σ) (id : String) (owner : String)
    (value : Int) : Outcome σ Unit :=
  match ctx.GetClientIdentity.GetID with
  | .error err => (.error ⟨.IdentityError, "failed to get client identity: " ++ err⟩, s)
  | .ok creator =>
    match ctx.GetClientIdentity.GetAttributeValue "role" with
    | .error err => (.error ⟨.IdentityError, "failed to get role attribute: " ++ err⟩, s)
    | .ok (role, found) =>
      if !found || role != "admin" then
        (.error ⟨.AuthorizationError, "only admin can create assets"⟩, s)
      else
        match AssetExists ctx s id with
        | (.error err, s1) => (.error err, s1)
        | (.ok exists_, s1) =>
          if exists_ then
            (.error ⟨.ConflictError, "the asset " ++ id ++ " already exists"⟩, s1)
          else
            let asset : Asset := ⟨id, owner, value, creator⟩
            match J.Marshal asset with
            | .error err => (.error ⟨.SerializationError, err⟩, s1)
            | .ok assetJSON =>
              match ctx.GetStub.PutState s1 id assetJSON with
              | .error err => (.error ⟨.StoreError, err⟩, s1)
              | .ok s2 => (.ok (), s2)

/-- `ReadAsset` (lines 66-106). -/
def ReadAsset (J : Codec) (ctx : TransactionContext σ) (s : σ) (id : String) : Outcome σ Asset :=
  match ctx.GetClientIdentity.GetAttributeValue "role" with
  | .error err => (.error ⟨.IdentityError, "failed to get role attribute: " ++ err⟩, s)
  | .ok (role, found) =>
    if !found then
      (.error ⟨.AuthorizationError, "role attribute not found"⟩, s)
    else
      match ctx.GetStub.GetState s id with
      | .error err => (.error ⟨.StoreError, "failed to read from world state: " ++ err⟩, s)
      | .ok none => (.error ⟨.NotFoundError, "the asset " ++ id ++ " does not exist"⟩, s)
      | .ok (some assetJSON) =>
        match J.Unmarshal assetJSON with
        | .error err => (.error ⟨.SerializationError, err⟩, s)
        | .ok asset =>
          if role == "auditor" then
            (.ok asset, s)
          else if role == "user" then
            match ctx.GetClientIdentity.GetID with
            | .error err =>
              (.error ⟨.IdentityError, "failed to get client identity: " ++ err⟩, s)
            | .ok clientID =>
              if asset.Owner != clientID then
                (.error ⟨.AuthorizationError,
                  "access denied: you can only view your own assets"⟩, s)
              else
                (.ok asset, s)
          else
            (.ok asset, s)

/-- `UpdateAsset` (lines 108-140). -/
def UpdateAsset (J : Codec) (ctx : TransactionContext σ) (s : σ) (id : String) (newValue : Int) :
    Outcome σ Unit :=
  match ctx.GetClientIdentity.GetAttributeValue "role" with
  | .error err => (.error ⟨.IdentityError, "failed to get role attribute: " ++ err⟩, s)
  | .ok (role, found) =>
    if !found || role != "admin" then
      (.error ⟨.AuthorizationError, "only admin can update assets"⟩, s)
    else
      match AssetExists ctx s id with
      | (.error err, s1) => (.error err, s1)
      | (.ok exists_, s1) =>
        if !exists_ then
          (.error ⟨.NotFoundError, "the asset " ++ id ++ " does not exist"⟩, s1)
        else
          match ReadAssetInternal J ctx s1 id with
          | (.error err, s2) => (.error err, s2)
          | (.ok asset, s2) =>
            let asset : Asset := { asset with Value := newValue }
            match J.Marshal asset with
            | .error err => (.error ⟨.SerializationError, err⟩, s2)
            | .ok assetJSON =>
              match ctx.GetStub.PutState s2 id assetJSON with
              | .error err => (.error ⟨.StoreError, err⟩, s2)
              | .ok s3 => (.ok (), s3)

/-- `DeleteAsset` (lines 142-162). -/
def DeleteAsset (ctx : TransactionContext σ) (s : σ) (id : String) : Outcome σ Unit :=
  match ctx.GetClientIdentity.GetAttributeValue "role" with
  | .error err => (.error ⟨.IdentityError, "failed to get role attribute: " ++ err⟩, s)
  | .ok (role, found) =>
    if !found || role != "admin" then
      (.error ⟨.AuthorizationError, "only admin can delete assets"⟩, s)
    else
      match AssetExists ctx s id with
      | (.error err, s1) => (.error err, s1)
      | (.ok exists_, s1) =>
        if !exists_ then
          (.error ⟨.NotFoundError, "the asset " ++ id ++ " does not exist"⟩, s1)
        else
          match ctx.GetStub.DelState s1 id with
          | .error err => (.error ⟨.StoreError, err⟩, s1)
          | .ok s2 => (.ok (), s2)

/-- The loop of `GetAllAssets` (lines 181-196): `assets` is the slice built so
far, the list is what the iterator still has to return. -/
def collectAssets (J : Codec) : StateQueryIterator → List Asset → Except Error (List Asset)
  | [], assets => .ok assets
  | .error err :: _, _ => .error ⟨.StoreError, err⟩
  | .ok queryResponse :: rest, assets =>
    match J.Unmarshal queryResponse.Value with
    | .error err => .error ⟨.SerializationError, err⟩
    | .ok asset => collectAssets J rest (assets ++ [asset])

/-- `GetAllAssets` (lines 164-197). -/
def GetAllAssets (J : Codec) (ctx : TransactionContext σ) (s : σ) : Outcome σ (List Asset) :=
  match ctx.GetClientIdentity.GetAttributeValue "role" with
  | .error err => (.error ⟨.IdentityError, "failed to get role attribute: " ++ err⟩, s)
  | .ok (role, found) =>
    if !found || role != "auditor" then
      (.error ⟨.AuthorizationError, "only auditors can view all assets"⟩, s)
    else
      match ctx.GetStub.GetStateByRange s "" "" with
      | .error err => (.error ⟨.StoreError, err⟩, s)
      | .ok resultsIterator => (collectAssets J resultsIterator [], s)

end Operations

/-! ## An in-memory platform

Concrete collaborators, used to run the operations on explicit inputs. -/

/-- Modelled from the spec: the abstract world-state store of section 6, as an
association list. A scan returns the entries in list order. -/
abbrev WorldState := List (String × Bytes)

/-- Value stored at a key, if any. -/
def getValue : WorldState → String → Option Bytes
  | [], _ => none
  | (k, v) :: rest, key => if k = key then some v else getValue rest key

/-- Write a value at a key: an existing entry is overwritten in place, a new one
is inserted before the first larger key (keys are compared character by
character). -/
def putValue : WorldState → String → Bytes → WorldState
  | [], key, value => [(key, value)]
  | (k, v) :: rest, key, value =>
    if k = key then (key, value) :: rest
    else if key.data < k.data then (key, value) :: (k, v) :: rest
    else (k, v) :: putValue rest key value

/-- Remove every entry of a key. -/
def delValue : WorldState → String → WorldState
  | [], _ => []
  | (k, v) :: rest, key => if k = key then delValue rest key else (k, v) :: delValue rest key

/-- Entries with `startKey ≤ key < endKey`; an empty bound is no bound. -/
def scanRange (s : WorldState) (startKey endKey : String) : StateQueryIterator :=
  (s.filter fun kv =>
      (startKey = "" ∨ ¬ kv.1.data < startKey.data) ∧ (endKey = "" ∨ kv.1.data < endKey.data)).map
    fun kv => .ok ⟨kv.1, kv.2⟩

/-- Modelled from the spec: the world-state store interface of section 6
(get, put, delete, range scan) over `WorldState`; no operation fails. -/
def memStub : ChaincodeStub WorldState where
  GetState := fun s key => .ok (getValue s key)
  PutState := fun s key value => .ok (putValue s key value)
  DelState := fun s key => .ok (delValue s key)
  GetStateByRange := fun s startKey endKey => .ok (scanRange s startKey endKey)

/-- A client identity whose identifier resolves to `id` and whose only attribute
is `role`. -/
def caller (id role : String) : ClientIdentity where
  GetID := .ok id
  GetAttributeValue := fun attrName => if attrName = "role" then .ok (role, true) else .ok ("", false)

/-- A client identity with a `role` attribute whose identifier cannot be
resolved. -/
def unresolvedCaller (role : String) : ClientIdentity where
  GetID := .error "no certificate"
  GetAttributeValue := fun attrName => if attrName = "role" then .ok (role, true) else .ok ("", false)

/-- A client identity without any attribute. -/
def callerWithoutRole (id : String) : ClientIdentity where
  GetID := .ok id
  GetAttributeValue := fun _ => .ok ("", false)

/-- Invocation context of a client over the in-memory world state. -/
def memContext (client : ClientIdentity) : TransactionContext WorldState where
  GetClientIdentity := client
  GetStub := memStub

/-- Length-prefixed encoding of a string. -/
def encodeString (str : String) : Bytes :=
  str.data.length :: str.data.map Char.toNat

/-- Sign-and-magnitude encoding of an integer. -/
def encodeInt : Int → Bytes
  | .ofNat n => [0, n]
  | .negSucc n => [1, n]

/-- Read a length-prefixed string and return the rest of the input. -/
def decodeString : Bytes → Option (String × Bytes)
  | [] => none
  | n :: rest =>
    if n ≤ rest.length then some (⟨(rest.take n).map Char.ofNat⟩, rest.drop n) else none

/-- Read an integer and return the rest of the input. -/
def decodeInt : Bytes → Option (Int × Bytes)
  | 0 :: n :: rest => some (.ofNat n, rest)
  | 1 :: n :: rest => some (.negSucc n, rest)
  | _ => none

/-- Decode the four fields of an asset; the whole input has to be consumed. -/
def decodeAsset (b : Bytes) : Option Asset :=
  match decodeString b with
  | none => none
  | some (id, b1) =>
    match decodeString b1 with
    | none => none
    | some (owner, b2) =>
      match decodeInt b2 with
      | none => none
      | some (value, b3) =>
        match decodeString b3 with
        | none => none
        | some (createdBy, b4) => if b4 = [] then some ⟨id, owner, value, createdBy⟩ else none

/-- Encoding of the four fields of an asset, in declaration order. -/
def encodeAsset (a : Asset) : Bytes :=
  encodeString a.ID ++ (encodeString a.Owner ++ (encodeInt a.Value ++ encodeString a.CreatedBy))

/-- A total encoder and a decoder that invert each other, standing for
`encoding/json` when the operations are run on explicit inputs whose strings
are valid UTF-8; `jsonCodec` below also covers the other strings. -/
def wireCodec : Codec where
  Marshal := fun a => .ok (encodeAsset a)
  Unmarshal := fun b =>
    match decodeAsset b with
    | some a => .ok a
    | none => .error "invalid character"

/-! ## Strings in `encoding/json`

`json.Marshal` writes a string byte by byte; where `utf8.DecodeRuneInString`
finds no well-formed sequence it writes the escape of U+FFFD for one byte and
goes on with the next byte. Well-formed sequences are read back as they are. -/

/-- Whether a byte is a continuation byte (`80..BF`). -/
def isContinuation (c : Char) : Bool :=
  decide (0x80 ≤ c.toNat) && decide (c.toNat ≤ 0xBF)

/-- Whether `c1` is accepted after the lead byte `c0` of a three-byte sequence
(`A0..BF` after `E0`, `80..9F` after `ED`, `80..BF` otherwise). -/
def secondOfThree (c0 c1 : Char) : Bool :=
  decide ((if c0.toNat = 0xE0 then 0xA0 else 0x80) ≤ c1.toNat) &&
  decide (c1.toNat ≤ (if c0.toNat = 0xED then 0x9F else 0xBF))

/-- Whether `c1` is accepted after the lead byte `c0` of a four-byte sequence
(`90..BF` after `F0`, `80..8F` after `F4`, `80..BF` otherwise). -/
def secondOfFour (c0 c1 : Char) : Bool :=
  decide ((if c0.toNat = 0xF0 then 0x90 else 0x80) ≤ c1.toNat) &&
  decide (c1.toNat ≤ (if c0.toNat = 0xF4 then 0x8F else 0xBF))

/-- Number of bytes of the well-formed UTF-8 sequence at the head of the bytes,
0 when there is none (`utf8.DecodeRune` then returns `RuneError` with width
1). -/
def runeLength : List Char → Nat
  | [] => 0
  | c0 :: rest =>
    if c0.toNat < 0x80 then 1
    else if 0xC2 ≤ c0.toNat ∧ c0.toNat ≤ 0xDF then
      match rest with
      | c1 :: _ => if isContinuation c1 then 2 else 0
      | _ => 0
    else if 0xE0 ≤ c0.toNat ∧ c0.toNat ≤ 0xEF then
      match rest with
      | c1 :: c2 :: _ => if secondOfThree c0 c1 && isContinuation c2 then 3 else 0
      | _ => 0
    else if 0xF0 ≤ c0.toNat ∧ c0.toNat ≤ 0xF4 then
      match rest with
      | c1 :: c2 :: c3 :: _ =>
        if secondOfFour c0 c1 && isContinuation c2 && isContinuation c3 then 4 else 0
      | _ => 0
    else 0

/-- The bytes `EF BF BD`, the UTF-8 encoding of U+FFFD. -/
def replacementBytes : List Char := [Char.ofNat 0xEF, Char.ofNat 0xBF, Char.ofNat 0xBD]

/-- Copy the bytes, replacing every byte that starts no well-formed sequence by
`replacementBytes`; `pending` is the number of bytes still to copy of the
sequence being read. -/
def sanitizeBytes : Nat → List Char → List Char
  | _, [] => []
  | pending + 1, c :: rest => c :: sanitizeBytes pending rest
  | 0, c :: rest =>
    match runeLength (c :: rest) with
    | 0 => replacementBytes ++ sanitizeBytes 0 rest
    | n + 1 => c :: sanitizeBytes n rest

/-- What a Go string reads back as after `json.Marshal` and `json.Unmarshal`:
the string with every invalid UTF-8 byte replaced by U+FFFD. -/
def toValidUTF8 (str : String) : String := ⟨sanitizeBytes 0 str.data⟩

/-- Whether a Go string is valid UTF-8, that is, left as it is by
`toValidUTF8`. -/
def validUTF8 (str : String) : Bool := decide (toValidUTF8 str = str)

/-- An asset with its three strings passed through `toValidUTF8`. -/
def sanitizeAsset (a : Asset) : Asset :=
  ⟨toValidUTF8 a.ID, toValidUTF8 a.Owner, a.Value, toValidUTF8 a.CreatedBy⟩

/-- A codec that treats strings as `encoding/json` does: invalid UTF-8 is
replaced by U+FFFD when an asset is encoded and when it is decoded. The byte
format is that of `wireCodec`. -/
def jsonCodec : Codec where
  Marshal := fun a => .ok (encodeAsset (sanitizeAsset a))
  Unmarshal := fun b =>
    match decodeAsset b with
    | some a => .ok (sanitizeAsset a)
    | none => .error "invalid character"

/-- A stub all of whose operations fail. -/
def failingStub (σ : Type) : ChaincodeStub σ where
  GetState := fun _ _ => .error "ledger unavailable"
  PutState := fun _ _ _ => .error "ledger unavailable"
  DelState := fun _ _ => .error "ledger unavailable"
  GetStateByRange := fun _ _ _ => .error "ledger unavailable"

/-- The asset of the round-trip scenario of the specification, created by the
identity `x509::admin`. -/
def sampleAsset : Asset := ⟨"a1", "orgA", 100, "x509::admin"⟩

/-- A world state holding `sampleAsset` at its key. -/
def sampleStore : WorldState := [("a1", encodeAsset sampleAsset)]

/-- A second asset, with a negative value. -/
def secondAsset : Asset := ⟨"a2", "orgB", -3, "x509::admin"⟩

/-- A world state holding two assets. -/
def twoAssetStore : WorldState :=
  [("a1", encodeAsset sampleAsset), ("a2", encodeAsset secondAsset)]

/-- A world state holding an asset and, at a later key, bytes that do not
decode. -/
def corruptStore : WorldState := [("a1", encodeAsset sampleAsset), ("zz", [255])]

/-- A codec law, the behaviour of `encoding/json` on strings: an encoding
decodes to the encoded asset with invalid UTF-8 replaced by U+FFFD in its
strings. -/
def Codec.ReplacesInvalidUTF8 (J : Codec) : Prop :=
  ∀ (a : Asset) (b : Bytes), J.Marshal a = .ok b → J.Unmarshal b = .ok (sanitizeAsset a)

/-- A codec law: an asset that was decoded, with any `Value`, is decoded again
from its encoding. (The strings of a decoded asset are valid UTF-8.) -/
def Codec.ReencodesDecoded (J : Codec) : Prop :=
  ∀ (b : Bytes) (a : Asset) (newValue : Int) (assetJSON : Bytes),
    J.Unmarshal b = .ok a →
    J.Marshal ⟨a.ID, a.Owner, newValue, a.CreatedBy⟩ = .ok assetJSON →
    J.Unmarshal assetJSON = .ok ⟨a.ID, a.Owner, newValue, a.CreatedBy⟩

/-- A stub law: a successful write is seen by a following read of the same key. -/
def ChaincodeStub.ReadsOwnWrite {σ : Type} (S : ChaincodeStub σ) : Prop :=
  ∀ (s s1 : σ) (key : String) (value : Bytes),
    S.PutState s key value = .ok s1 → S.GetState s1 key = .ok (some value)

/-- A stub law: a successful delete is seen by a following read of the same
key. -/
def ChaincodeStub.ReadsOwnDelete {σ : Type} (S : ChaincodeStub σ) : Prop :=
  ∀ (s s1 : σ) (key : String), S.DelState s key = .ok s1 → S.GetState s1 key = .ok none

/-- A stub law: a successful write or delete of a key leaves what is read at
every other key as it was. -/
def ChaincodeStub.WritesOneKey {σ : Type} (S : ChaincodeStub σ) : Prop :=
  (∀ (s s1 : σ) (key other : String) (value : Bytes),
    S.PutState s key value = .ok s1 → other ≠ key → S.GetState s1 other = S.GetState s other) ∧
  (∀ (s s1 : σ) (key other : String),
    S.DelState s key = .ok s1 → other ≠ key → S.GetState s1 other = S.GetState s other)

/-! ## Invocations and traces -/

/-- `InitLedger` (lines 22-24). -/
def InitLedger {σ : Type} (_ctx : TransactionContext σ) (s : σ) : Outcome σ Unit :=
  (.ok (), s)

/-- A transaction sent to the chaincode: an exported method of `SmartContract`
with its arguments. -/
inductive Invocation where
  | InitLedger
  | CreateAsset (id owner : String) (value : Int)
  | ReadAsset (id : String)
  | UpdateAsset (id : String) (newValue : Int)
  | DeleteAsset (id : String)
  | GetAllAssets
  | AssetExists (id : String)
  | ReadAssetInternal (id : String)
deriving DecidableEq, Repr

/-- Run one transaction: whether it succeeded, and the world state afterwards. -/
def invoke {σ : Type} (J : Codec) (ctx : TransactionContext σ) (s : σ) : Invocation → Bool × σ
  | .InitLedger => (succeeded (InitLedger ctx s).1, (InitLedger ctx s).2)
  | .CreateAsset id owner value =>
    (succeeded (CreateAsset J ctx s id owner value).1, (CreateAsset J ctx s id owner value).2)
  | .ReadAsset id => (succeeded (ReadAsset J ctx s id).1, (ReadAsset J ctx s id).2)
  | .UpdateAsset id newValue =>
    (succeeded (UpdateAsset J ctx s id newValue).1, (UpdateAsset J ctx s id newValue).2)
  | .DeleteAsset id => (succeeded (DeleteAsset ctx s id).1, (DeleteAsset ctx s id).2)
  | .GetAllAssets => (succeeded (GetAllAssets J ctx s).1, (GetAllAssets J ctx s).2)
  | .AssetExists id => (succeeded (AssetExists ctx s id).1, (AssetExists ctx s id).2)
  | .ReadAssetInternal id =>
    (succeeded (ReadAssetInternal J ctx s id).1, (ReadAssetInternal J ctx s id).2)

/-- A transaction together with the client that sends it. -/
abbrev Step := ClientIdentity × Invocation

/-- The world state after a sequence of transactions, applied one after the
other over the same stub. -/
def run {σ : Type} (J : Codec) (S : ChaincodeStub σ) (s0 : σ) (trace : List Step) : σ :=
  trace.foldl (fun s step => (invoke J ⟨step.1, S⟩ s step.2).2) s0

/-- Whether the client carries the attribute `role` with value `admin`. -/
def hasAdminRole (client : ClientIdentity) : Bool :=
  match client.GetAttributeValue "role" with
  | .ok (role, found) => found && role == "admin"
  | .error _ => false

/-- Keys strictly increasing, every value decoding to an asset whose `ID` is its
key with invalid UTF-8 replaced by U+FFFD. -/
def WellFormed (J : Codec) (s : WorldState) : Prop :=
  (s.map Prod.fst).Pairwise (fun k1 k2 => k1.data < k2.data) ∧
  ∀ kv ∈ s, ∃ a, J.Unmarshal kv.2 = .ok a ∧ a.ID = toValidUTF8 kv.1

/-- A trace on which an admin creates two assets whose ids, `k\xff` and
`k\xfe`, are not valid UTF-8. -/
def invalidKeyTrace : List Step :=
  [(caller "x509::admin" "admin", .CreateAsset "k\xff" "orgA" 1),
   (caller "x509::admin" "admin", .CreateAsset "k\xfe" "orgA" 2)]

/-- A trace on which an admin creates `a2` and `a1`, a user tries to create
`a3`, the admin updates `a1` and deletes `a2`, and an auditor lists. -/
def sampleTrace : List Step :=
  [(caller "x509::admin" "admin", .CreateAsset "a2" "orgB" (-3)),
   (caller "orgA" "user", .CreateAsset "a3" "orgA" 1),
   (caller "x509::admin" "admin", .CreateAsset "a1" "orgA" 100),
   (caller "x509::admin" "admin", .UpdateAsset "a1" 250),
   (caller "x509::admin" "admin", .DeleteAsset "a2"),
   (caller "x509::auditor" "auditor", .GetAllAssets)]

/-! ## Shared lemmas -/

/-- In the in-memory codec, a length-prefixed string followed by any input is
read back, and the input after it is returned. -/
theorem decodeString_encodeString (str : String) (rest : Bytes) :
    decodeString (encodeString str ++ rest) = some (str, rest) := by
  have hlen : (List.map Char.toNat str.data).length = str.data.length := by simp
  have hchars : List.map (Char.ofNat ∘ Char.toNat) str.data = str.data := by
    have hid : (Char.ofNat ∘ Char.toNat) = id := by
      funext c
      simp [Char.ofNat_toNat]
    rw [hid, List.map_id]
  simp [decodeString, encodeString, List.take_append_eq_append_take, List.drop_append_eq_append_drop,
    List.map_take, hchars]

/-- In the in-memory codec, an encoded integer followed by any input is read
back. -/
theorem decodeInt_encodeInt (i : Int) (rest : Bytes) :
    decodeInt (encodeInt i ++ rest) = some (i, rest) := by
  cases i <;> simp [decodeInt, encodeInt]

/-- The in-memory decoder inverts the in-memory encoder. -/
theorem decodeAsset_encodeAsset (a : Asset) : decodeAsset (encodeAsset a) = some a := by
  have h4 := decodeString_encodeString a.CreatedBy []
  rw [List.append_nil] at h4
  simp [decodeAsset, encodeAsset, decodeString_encodeString, decodeInt_encodeInt, h4]

/-- The in-memory codec decodes again what it decoded and encoded. -/
theorem wireCodec_reencodesDecoded : wireCodec.ReencodesDecoded := by
  intro b a newValue assetJSON _ h
  simp only [wireCodec, Except.ok.injEq] at h
  subst h
  simp [wireCodec, decodeAsset_encodeAsset]

/-- A sequence that is well formed before the bytes after it are sanitized is
well formed, with the same length, afterwards. -/
theorem runeLength_sanitizeBytes (c : Char) (rest : List Char) (n : Nat)
    (h : runeLength (c :: rest) = n + 1) :
    runeLength (c :: sanitizeBytes n rest) = n + 1 := by
  simp only [runeLength] at h ⊢
  by_cases h0 : c.toNat < 0x80
  · rw [if_pos h0] at h ⊢
    exact h
  · rw [if_neg h0] at h ⊢
    by_cases h1 : 0xC2 ≤ c.toNat ∧ c.toNat ≤ 0xDF
    · rw [if_pos h1] at h ⊢
      match rest, h with
      | [], h => simp at h
      | c1 :: r1, h =>
        by_cases hc : isContinuation c1 = true
        · simp only [hc, if_true] at h
          have hn : n = 1 := by omega
          subst hn
          simp [sanitizeBytes, hc]
        · simp [hc] at h
    · rw [if_neg h1] at h ⊢
      by_cases h2 : 0xE0 ≤ c.toNat ∧ c.toNat ≤ 0xEF
      · rw [if_pos h2] at h ⊢
        match rest, h with
        | [], h => simp at h
        | [c1], h => simp at h
        | c1 :: c2 :: r2, h =>
          by_cases hc : (secondOfThree c c1 && isContinuation c2) = true
          · simp only [hc, if_true] at h
            have hn : n = 2 := by omega
            subst hn
            simp only [sanitizeBytes, hc, if_true]
          · simp [hc] at h
      · rw [if_neg h2] at h ⊢
        by_cases h3 : 0xF0 ≤ c.toNat ∧ c.toNat ≤ 0xF4
        · rw [if_pos h3] at h ⊢
          match rest, h with
          | [], h => simp at h
          | [c1], h => simp at h
          | [c1, c2], h => simp at h
          | c1 :: c2 :: c3 :: r3, h =>
            by_cases hc : (secondOfFour c c1 && isContinuation c2 && isContinuation c3) = true
            · simp only [hc, if_true] at h
              have hn : n = 3 := by omega
              subst hn
              simp only [sanitizeBytes, hc, if_true]
            · simp [hc] at h
        · rw [if_neg h3] at h
          simp at h

/-- The replacement bytes are a well-formed sequence of three bytes. -/
theorem runeLength_replacement (rest : List Char) :
    runeLength (replacementBytes ++ rest) = 3 := by
  simp [replacementBytes, runeLength, secondOfThree, isContinuation]

/-- Sanitized bytes are left as they are by sanitizing. -/
theorem sanitizeBytes_idem (pending : Nat) (bytes : List Char) :
    sanitizeBytes pending (sanitizeBytes pending bytes) = sanitizeBytes pending bytes := by
  induction bytes generalizing pending with
  | nil => simp [sanitizeBytes]
  | cons c rest ih =>
    cases pending with
    | succ k => simp [sanitizeBytes, ih]
    | zero =>
      simp only [sanitizeBytes]
      cases hlen : runeLength (c :: rest) with
      | zero =>
        simp only
        have h3 := runeLength_replacement (sanitizeBytes 0 rest)
        simp only [replacementBytes, List.cons_append, List.nil_append] at h3 ⊢
        simp only [sanitizeBytes, h3, ih]
      | succ n =>
        simp only
        simp only [sanitizeBytes, runeLength_sanitizeBytes c rest n hlen, ih]

/-- The result of `toValidUTF8` is valid UTF-8. -/
theorem toValidUTF8_idem (str : String) : toValidUTF8 (toValidUTF8 str) = toValidUTF8 str := by
  simp [toValidUTF8, sanitizeBytes_idem]

/-- A sanitized asset is left as it is by sanitizing. -/
theorem sanitizeAsset_idem (a : Asset) : sanitizeAsset (sanitizeAsset a) = sanitizeAsset a := by
  simp [sanitizeAsset, toValidUTF8_idem]

/-- A valid UTF-8 string is left as it is by `toValidUTF8`. -/
theorem toValidUTF8_of_valid (str : String) (h : validUTF8 str = true) :
    toValidUTF8 str = str := by
  simpa [validUTF8] using h

/-- The codec `jsonCodec` replaces invalid UTF-8 as `encoding/json` does. -/
theorem jsonCodec_replacesInvalidUTF8 : jsonCodec.ReplacesInvalidUTF8 := by
  intro a b h
  simp only [jsonCodec, Except.ok.injEq] at h
  subst h
  simp [jsonCodec, decodeAsset_encodeAsset, sanitizeAsset_idem]

/-- The codec `jsonCodec` decodes again what it decoded and encoded. -/
theorem jsonCodec_reencodesDecoded : jsonCodec.ReencodesDecoded := by
  intro b a newValue assetJSON hdec h
  simp only [jsonCodec, Except.ok.injEq] at h
  subst h
  have hvalid : sanitizeAsset a = a := by
    simp only [jsonCodec] at hdec
    split at hdec
    · rename_i a0 _
      simp only [Except.ok.injEq] at hdec
      rw [← hdec, sanitizeAsset_idem]
    · simp at hdec
  have hfields : sanitizeAsset ⟨a.ID, a.Owner, newValue, a.CreatedBy⟩
      = ⟨a.ID, a.Owner, newValue, a.CreatedBy⟩ := by
    have h1 := congrArg Asset.ID hvalid
    have h2 := congrArg Asset.Owner hvalid
    have h3 := congrArg Asset.CreatedBy hvalid
    simp only [sanitizeAsset] at h1 h2 h3 ⊢
    rw [h1, h2, h3]
  simp [jsonCodec, decodeAsset_encodeAsset, sanitizeAsset_idem, hfields]

/-- Reading a key of the in-memory store right after writing it gives the value
written. -/
theorem getValue_putValue (s : WorldState) (key : String) (value : Bytes) :
    getValue (putValue s key value) key = some value := by
  induction s with
  | nil => simp [putValue, getValue]
  | cons kv rest ih =>
    obtain ⟨k, v⟩ := kv
    by_cases hk : k = key
    · simp [putValue, getValue, hk]
    · by_cases hlt : key.data < k.data
      · simp [putValue, getValue, hk, hlt]
      · simp [putValue, getValue, hk, hlt, ih]

/-- The in-memory stub satisfies the stub law. -/
theorem memStub_readsOwnWrite : memStub.ReadsOwnWrite := by
  intro s s1 key value h
  simp only [memStub, Except.ok.injEq] at h
  subst h
  simp [memStub, getValue_putValue]

/-- A full-range scan of the in-memory store returns every entry, in order. -/
theorem scanRange_full (s : WorldState) :
    scanRange s "" "" = s.map fun kv => .ok ⟨kv.1, kv.2⟩ := by
  simp [scanRange]

/-! ## Reading one asset -/

/-- C1, as stated, fails: a caller with role `admin` whose identity resolves to
`x509::admin` reads `a1`, owned by `orgA`. The claim requires an
AuthorizationError since identity and owner differ; the code returns the
record. -/
theorem ReadAsset_admin_reads_foreign_asset :
    (caller "x509::admin" "admin").GetAttributeValue "role" = .ok ("admin", true) ∧
    (caller "x509::admin" "admin").GetID = .ok "x509::admin" ∧
    memStub.GetState sampleStore "a1" = .ok (some (encodeAsset sampleAsset)) ∧
    wireCodec.Unmarshal (encodeAsset sampleAsset) = .ok sampleAsset ∧
    sampleAsset.Owner ≠ "x509::admin" ∧
    ReadAsset wireCodec (memContext (caller "x509::admin" "admin")) sampleStore "a1"
      = (.ok sampleAsset, sampleStore) ∧
    errorKind (ReadAsset wireCodec (memContext (caller "x509::admin" "admin")) sampleStore "a1").1
      ≠ some .AuthorizationError := by
  decide

/-- C1, amended: when the role attribute is present and is neither `auditor`
nor `user`, `ReadAsset` on a key holding a decodable asset returns that asset
and leaves the store as it was, for every client identity: the identity is not
resolved and not compared to `Owner`. -/
theorem ReadAsset_other_role_returns_record {σ : Type} (J : Codec) (ctx : TransactionContext σ)
    (s : σ) (id role : String) (b : Bytes) (a : Asset)
    (hrole : ctx.GetClientIdentity.GetAttributeValue "role" = .ok (role, true))
    (hauditor : role ≠ "auditor") (huser : role ≠ "user")
    (hget : ctx.GetStub.GetState s id = .ok (some b)) (hdec : J.Unmarshal b = .ok a) :
    ReadAsset J ctx s id = (.ok a, s) := by
  simp [ReadAsset, hrole, hget, hdec, hauditor, huser]

/-- Witness of C1 amended: an admin whose identity cannot be resolved reads
`a1`. -/
theorem ReadAsset_other_role_returns_record_witness :
    ReadAsset wireCodec (memContext (unresolvedCaller "admin")) sampleStore "a1"
      = (.ok sampleAsset, sampleStore) :=
  ReadAsset_other_role_returns_record wireCodec (memContext (unresolvedCaller "admin"))
    sampleStore "a1" "admin" (encodeAsset sampleAsset) sampleAsset
    (by decide) (by decide) (by decide) (by decide) (by decide)

/-- C2: for a caller with role `user` whose identity resolves to `c`, `ReadAsset`
on a key holding a decodable asset `a` returns `a` when `c` is the owner, fails
with AuthorizationError when it is not, and so succeeds exactly when `c` is the
owner; the store is unchanged. -/
theorem ReadAsset_user_iff_owner {σ : Type} (J : Codec) (ctx : TransactionContext σ)
    (s : σ) (id c : String) (b : Bytes) (a : Asset)
    (hrole : ctx.GetClientIdentity.GetAttributeValue "role" = .ok ("user", true))
    (hid : ctx.GetClientIdentity.GetID = .ok c)
    (hget : ctx.GetStub.GetState s id = .ok (some b)) (hdec : J.Unmarshal b = .ok a) :
    (c = a.Owner → ReadAsset J ctx s id = (.ok a, s)) ∧
    (c ≠ a.Owner → ReadAsset J ctx s id
      = (.error ⟨.AuthorizationError, "access denied: you can only view your own assets"⟩, s)) ∧
    (succeeded (ReadAsset J ctx s id).1 = true ↔ c = a.Owner) := by
  by_cases hc : a.Owner = c
  · simp [ReadAsset, hrole, hid, hget, hdec, hc, succeeded]
  · have hc1 : ¬ c = a.Owner := fun h => hc h.symm
    simp [ReadAsset, hrole, hid, hget, hdec, hc, hc1, succeeded]

/-- Witness of C2: the user `orgA` reads the asset it owns, the user `orgB` is
denied. -/
theorem ReadAsset_user_iff_owner_witness :
    (ReadAsset wireCodec (memContext (caller "orgA" "user")) sampleStore "a1"
      = (.ok sampleAsset, sampleStore)) ∧
    (ReadAsset wireCodec (memContext (caller "orgB" "user")) sampleStore "a1"
      = (.error ⟨.AuthorizationError, "access denied: you can only view your own assets"⟩,
          sampleStore)) :=
  ⟨(ReadAsset_user_iff_owner wireCodec (memContext (caller "orgA" "user")) sampleStore "a1" "orgA"
      (encodeAsset sampleAsset) sampleAsset (by decide) (by decide) (by decide) (by decide)).1
      (by decide),
   (ReadAsset_user_iff_owner wireCodec (memContext (caller "orgB" "user")) sampleStore "a1" "orgB"
      (encodeAsset sampleAsset) sampleAsset (by decide) (by decide) (by decide) (by decide)).2.1
      (by decide)⟩

/-- C3: for a caller with role `auditor`, `ReadAsset` on a key holding a
decodable asset returns exactly that asset and leaves the store as it was,
whatever `GetID` would return (an identity, equal to the owner or not, or an
error) and whatever the owner is. -/
theorem ReadAsset_auditor_returns_record {σ : Type} (J : Codec) (ctx : TransactionContext σ)
    (s : σ) (id : String) (b : Bytes) (a : Asset)
    (hrole : ctx.GetClientIdentity.GetAttributeValue "role" = .ok ("auditor", true))
    (hget : ctx.GetStub.GetState s id = .ok (some b)) (hdec : J.Unmarshal b = .ok a) :
    ReadAsset J ctx s id = (.ok a, s) := by
  simp [ReadAsset, hrole, hget, hdec]

/-- Witness of C3: an auditor whose identity cannot be resolved reads `a1`. -/
theorem ReadAsset_auditor_returns_record_witness :
    (unresolvedCaller "auditor").GetID = .error "no certificate" ∧
    ReadAsset wireCodec (memContext (unresolvedCaller "auditor")) sampleStore "a1"
      = (.ok sampleAsset, sampleStore) :=
  ⟨rfl, ReadAsset_auditor_returns_record wireCodec (memContext (unresolvedCaller "auditor"))
    sampleStore "a1" (encodeAsset sampleAsset) sampleAsset (by decide) (by decide) (by decide)⟩

/-! ## Creating an asset -/

/-- A successful `CreateAsset` wrote, at `id`, the encoding of the asset built
from the arguments and the resolved caller identity. -/
theorem CreateAsset_ok_inv {σ : Type} (J : Codec) (ctx : TransactionContext σ) (s s1 : σ)
    (id owner : String) (value : Int)
    (hok : CreateAsset J ctx s id owner value = (.ok (), s1)) :
    ∃ creator assetJSON,
      ctx.GetClientIdentity.GetID = .ok creator ∧
      ctx.GetClientIdentity.GetAttributeValue "role" = .ok ("admin", true) ∧
      ctx.GetStub.GetState s id = .ok none ∧
      J.Marshal ⟨id, owner, value, creator⟩ = .ok assetJSON ∧
      ctx.GetStub.PutState s id assetJSON = .ok s1 := by
  unfold CreateAsset AssetExists at hok
  split at hok
  · simp at hok
  · rename_i creator hid
    split at hok
    · simp at hok
    · rename_i role found hrole
      split at hok
      · simp at hok
      · rename_i hadmin
        split at hok
        · rename_i err sx hex
          simp at hok
        · rename_i exists_ sx hex
          split at hex
          · simp at hex
          · rename_i assetJSON hget
            simp only [Prod.mk.injEq, Except.ok.injEq] at hex
            obtain ⟨hex1, hex2⟩ := hex
            subst hex2
            split at hok
            · simp at hok
            · rename_i hnot
              simp only at hok
              split at hok
              · simp at hok
              · rename_i bytes hmar
                split at hok
                · simp at hok
                · rename_i s2 hput
                  simp only [Prod.mk.injEq, true_and] at hok
                  subst hok
                  refine ⟨creator, bytes, hid, ?_, ?_, hmar, hput⟩
                  · simp only [Bool.or_eq_true, Bool.not_eq_true', bne_iff_ne, ne_eq,
                      not_or, Bool.not_eq_false, Decidable.not_not] at hadmin
                    rw [hrole, hadmin.1, hadmin.2]
                  · rw [hget]
                    cases assetJSON with
                    | none => rfl
                    | some x => simp [← hex1] at hnot

/-- C4, as stated, fails: an admin creates `a1` with the owner `org\xff`, a Go
string that is not valid UTF-8. The claim requires the reads to return exactly
that owner; the record is stored as JSON, which replaces the invalid byte by
U+FFFD, and both reads return the owner `org\xef\xbf\xbd`. -/
theorem CreateAsset_invalid_utf8_owner_read_back :
    validUTF8 "org\xff" = false ∧
    CreateAsset jsonCodec (memContext (caller "x509::admin" "admin")) [] "a1" "org\xff" 100
      = (.ok (), [("a1", encodeAsset ⟨"a1", "org\xef\xbf\xbd", 100, "x509::admin"⟩)]) ∧
    ReadAssetInternal jsonCodec (memContext (caller "x509::admin" "admin"))
        [("a1", encodeAsset ⟨"a1", "org\xef\xbf\xbd", 100, "x509::admin"⟩)] "a1"
      = (.ok ⟨"a1", "org\xef\xbf\xbd", 100, "x509::admin"⟩,
          [("a1", encodeAsset ⟨"a1", "org\xef\xbf\xbd", 100, "x509::admin"⟩)]) ∧
    ReadAsset jsonCodec ⟨caller "x509::auditor" "auditor", memStub⟩
        [("a1", encodeAsset ⟨"a1", "org\xef\xbf\xbd", 100, "x509::admin"⟩)] "a1"
      = (.ok ⟨"a1", "org\xef\xbf\xbd", 100, "x509::admin"⟩,
          [("a1", encodeAsset ⟨"a1", "org\xef\xbf\xbd", 100, "x509::admin"⟩)]) ∧
    (⟨"a1", "org\xef\xbf\xbd", 100, "x509::admin"⟩ : Asset)
      ≠ ⟨"a1", "org\xff", 100, "x509::admin"⟩ := by
  decide

/-- C4, amended: when a caller whose identity resolves to `c` successfully
creates `id` (which it can only do with role `admin` on a store with no value at
`id`, see `CreateAsset_ok_inv`), then in the resulting store `AssetExists id` is
true, and `ReadAssetInternal id` and `ReadAsset id` by any auditor both return
the asset with the given `id`, `owner`, `value` and `CreatedBy = c`, where in
`id`, `owner` and `c` invalid UTF-8 is replaced by U+FFFD; they return exactly
the given `id`, `owner`, `value` and `CreatedBy = c` when these strings are
valid UTF-8. The codec is assumed to treat strings as `encoding/json` does and
the stub to read what it wrote. -/
theorem CreateAsset_then_read {σ : Type} (J : Codec) (ctx : TransactionContext σ) (s s1 : σ)
    (id owner c : String) (value : Int) (auditor : ClientIdentity)
    (hJ : J.ReplacesInvalidUTF8) (hS : ctx.GetStub.ReadsOwnWrite)
    (hid : ctx.GetClientIdentity.GetID = .ok c)
    (haud : auditor.GetAttributeValue "role" = .ok ("auditor", true))
    (hok : CreateAsset J ctx s id owner value = (.ok (), s1)) :
    AssetExists ctx s1 id = (.ok true, s1) ∧
    ReadAssetInternal J ctx s1 id
      = (.ok ⟨toValidUTF8 id, toValidUTF8 owner, value, toValidUTF8 c⟩, s1) ∧
    ReadAsset J ⟨auditor, ctx.GetStub⟩ s1 id
      = (.ok ⟨toValidUTF8 id, toValidUTF8 owner, value, toValidUTF8 c⟩, s1) ∧
    (validUTF8 id = true → validUTF8 owner = true → validUTF8 c = true →
      ReadAssetInternal J ctx s1 id = (.ok ⟨id, owner, value, c⟩, s1) ∧
      ReadAsset J ⟨auditor, ctx.GetStub⟩ s1 id = (.ok ⟨id, owner, value, c⟩, s1)) := by
  obtain ⟨creator, assetJSON, hid1, -, -, hmar, hput⟩ := CreateAsset_ok_inv J ctx s s1 id owner value hok
  have hcc : creator = c := by
    rw [hid] at hid1
    simpa using hid1.symm
  subst hcc
  have hget := hS s s1 id assetJSON hput
  have hdec := hJ _ _ hmar
  simp only [sanitizeAsset] at hdec
  have hinternal : ReadAssetInternal J ctx s1 id
      = (.ok ⟨toValidUTF8 id, toValidUTF8 owner, value, toValidUTF8 creator⟩, s1) := by
    simp [ReadAssetInternal, hget, hdec]
  have hread : ReadAsset J ⟨auditor, ctx.GetStub⟩ s1 id
      = (.ok ⟨toValidUTF8 id, toValidUTF8 owner, value, toValidUTF8 creator⟩, s1) := by
    simp [ReadAsset, haud, hget, hdec]
  refine ⟨?_, hinternal, hread, ?_⟩
  · simp [AssetExists, hget]
  · intro h1 h2 h3
    rw [hinternal, hread, toValidUTF8_of_valid id h1, toValidUTF8_of_valid owner h2,
      toValidUTF8_of_valid creator h3]
    exact ⟨rfl, rfl⟩

/-- Witness of C4 amended, the round trip of the specification: `x509::admin`
creates `a1` with owner `orgA` and value 100 on the empty store, then an auditor
reads it. -/
theorem CreateAsset_then_read_witness :
    ReadAssetInternal jsonCodec (memContext (caller "x509::admin" "admin")) sampleStore "a1"
      = (.ok ⟨"a1", "orgA", 100, "x509::admin"⟩, sampleStore) ∧
    ReadAsset jsonCodec ⟨caller "x509::auditor" "auditor", memStub⟩ sampleStore "a1"
      = (.ok ⟨"a1", "orgA", 100, "x509::admin"⟩, sampleStore) :=
  (CreateAsset_then_read jsonCodec (memContext (caller "x509::admin" "admin")) [] sampleStore
    "a1" "orgA" "x509::admin" 100 (caller "x509::auditor" "auditor")
    jsonCodec_replacesInvalidUTF8 memStub_readsOwnWrite (by decide) (by decide)
    (by decide)).2.2.2 (by decide) (by decide) (by decide)

/-- C5, as stated, fails: the role attribute is `user` and the caller identity
cannot be resolved. The claim requires an AuthorizationError; `CreateAsset`
resolves the identity before it looks at the role and fails with
IdentityError. -/
theorem CreateAsset_unresolved_identity_non_admin :
    (unresolvedCaller "user").GetAttributeValue "role" = .ok ("user", true) ∧
    (unresolvedCaller "user").GetID = .error "no certificate" ∧
    CreateAsset wireCodec (memContext (unresolvedCaller "user")) [] "a1" "orgA" 100
      = (.error ⟨.IdentityError, "failed to get client identity: no certificate"⟩, []) ∧
    errorKind (CreateAsset wireCodec (memContext (unresolvedCaller "user")) [] "a1" "orgA" 100).1
      ≠ some .AuthorizationError := by
  decide

/-- C5, amended: when the role attribute is missing or is not `admin`,
`CreateAsset` fails with AuthorizationError if the caller identity resolves and
with IdentityError if it does not; in both cases the store afterwards is the
store before. -/
theorem CreateAsset_non_admin_fails {σ : Type} (J : Codec) (ctx : TransactionContext σ) (s : σ)
    (id owner role : String) (value : Int) (found : Bool)
    (hrole : ctx.GetClientIdentity.GetAttributeValue "role" = .ok (role, found))
    (hnot : found = false ∨ role ≠ "admin") :
    (∀ c, ctx.GetClientIdentity.GetID = .ok c →
      CreateAsset J ctx s id owner value
        = (.error ⟨.AuthorizationError, "only admin can create assets"⟩, s)) ∧
    (∀ err, ctx.GetClientIdentity.GetID = .error err →
      CreateAsset J ctx s id owner value
        = (.error ⟨.IdentityError, "failed to get client identity: " ++ err⟩, s)) := by
  constructor
  · intro c hid
    rcases hnot with h | h
    · simp [CreateAsset, hid, hrole, h]
    · simp [CreateAsset, hid, hrole, h]
  · intro err hid
    simp [CreateAsset, hid]

/-- Witness of C5 amended: a user, and a caller without role attribute, on a
store holding `a1`. -/
theorem CreateAsset_non_admin_fails_witness :
    CreateAsset wireCodec (memContext (caller "orgA" "user")) sampleStore "a2" "orgA" 7
      = (.error ⟨.AuthorizationError, "only admin can create assets"⟩, sampleStore) ∧
    CreateAsset wireCodec (memContext (callerWithoutRole "orgA")) sampleStore "a2" "orgA" 7
      = (.error ⟨.AuthorizationError, "only admin can create assets"⟩, sampleStore) :=
  ⟨(CreateAsset_non_admin_fails wireCodec (memContext (caller "orgA" "user")) sampleStore
      "a2" "orgA" "user" 7 true (by decide) (Or.inr (by decide))).1 "orgA" (by decide),
   (CreateAsset_non_admin_fails wireCodec (memContext (callerWithoutRole "orgA")) sampleStore
      "a2" "orgA" "" 7 false (by decide) (Or.inl rfl)).1 "orgA" (by decide)⟩

/-- C6, as stated, fails: the store holds a value at `a1` and the caller has
role `user`. The claim requires a ConflictError; the role is checked before the
existence of the key and `CreateAsset` fails with AuthorizationError. -/
theorem CreateAsset_existing_key_non_admin :
    memStub.GetState sampleStore "a1" = .ok (some (encodeAsset sampleAsset)) ∧
    CreateAsset wireCodec (memContext (caller "orgA" "user")) sampleStore "a1" "orgA" 100
      = (.error ⟨.AuthorizationError, "only admin can create assets"⟩, sampleStore) ∧
    errorKind (CreateAsset wireCodec (memContext (caller "orgA" "user")) sampleStore
      "a1" "orgA" 100).1 ≠ some .ConflictError := by
  decide

/-- C6, amended: when the store holds a value at `id` (decodable or not) and the
caller has role `admin` and an identity that resolves, `CreateAsset` fails with
ConflictError and the store afterwards is the store before. -/
theorem CreateAsset_existing_key_conflict {σ : Type} (J : Codec) (ctx : TransactionContext σ)
    (s : σ) (id owner c : String) (value : Int) (b : Bytes)
    (hid : ctx.GetClientIdentity.GetID = .ok c)
    (hrole : ctx.GetClientIdentity.GetAttributeValue "role" = .ok ("admin", true))
    (hget : ctx.GetStub.GetState s id = .ok (some b)) :
    CreateAsset J ctx s id owner value
      = (.error ⟨.ConflictError, "the asset " ++ id ++ " already exists"⟩, s) := by
  simp [CreateAsset, AssetExists, hid, hrole, hget]

/-- Witness of C6 amended: an admin creates `a1` a second time, with other
arguments. -/
theorem CreateAsset_existing_key_conflict_witness :
    CreateAsset wireCodec (memContext (caller "x509::admin" "admin")) sampleStore "a1" "orgB" 5
      = (.error ⟨.ConflictError, "the asset a1 already exists"⟩, sampleStore) :=
  CreateAsset_existing_key_conflict wireCodec (memContext (caller "x509::admin" "admin"))
    sampleStore "a1" "orgB" "x509::admin" 5 (encodeAsset sampleAsset)
    (by decide) (by decide) (by decide)

/-! ## Updating and deleting an asset -/

/-- A successful `UpdateAsset` on a key holding a decodable asset wrote, at
`id`, the encoding of that asset with `Value` replaced. -/
theorem UpdateAsset_ok_inv {σ : Type} (J : Codec) (ctx : TransactionContext σ) (s s1 : σ)
    (id : String) (newValue : Int) (b : Bytes) (a : Asset)
    (hget : ctx.GetStub.GetState s id = .ok (some b)) (hdec : J.Unmarshal b = .ok a)
    (hok : UpdateAsset J ctx s id newValue = (.ok (), s1)) :
    ∃ assetJSON,
      J.Marshal ⟨a.ID, a.Owner, newValue, a.CreatedBy⟩ = .ok assetJSON ∧
      ctx.GetStub.PutState s id assetJSON = .ok s1 := by
  unfold UpdateAsset at hok
  split at hok
  · simp at hok
  · split at hok
    · simp at hok
    · simp only [AssetExists, ReadAssetInternal, hget, hdec, Option.isSome_some, Bool.not_true,
        Bool.false_eq_true, if_false] at hok
      split at hok
      · simp at hok
      · rename_i assetJSON hmar
        split at hok
        · simp at hok
        · rename_i s3 hput
          simp only [Prod.mk.injEq, true_and] at hok
          subst hok
          exact ⟨assetJSON, hmar, hput⟩

/-- C8: when `UpdateAsset id newValue` succeeds (which it can only do for a
caller with role `admin`) on a store holding a decodable asset `a` at `id`, the
record left at `id` decodes to the asset with
`Value = newValue` and the `ID`, `Owner` and `CreatedBy` of `a`, and a following
`ReadAsset id` by any auditor returns that asset. The codec is assumed to decode
the encoding of an asset it decoded, with any `Value`, to that asset, and the
stub to read what it wrote. -/
theorem UpdateAsset_changes_only_value {σ : Type} (J : Codec) (ctx : TransactionContext σ)
    (s s1 : σ) (id : String) (newValue : Int) (b : Bytes) (a : Asset) (auditor : ClientIdentity)
    (hJ : J.ReencodesDecoded) (hS : ctx.GetStub.ReadsOwnWrite)
    (hget : ctx.GetStub.GetState s id = .ok (some b)) (hdec : J.Unmarshal b = .ok a)
    (haud : auditor.GetAttributeValue "role" = .ok ("auditor", true))
    (hok : UpdateAsset J ctx s id newValue = (.ok (), s1)) :
    (∃ b1, ctx.GetStub.GetState s1 id = .ok (some b1) ∧
      J.Unmarshal b1 = .ok ⟨a.ID, a.Owner, newValue, a.CreatedBy⟩) ∧
    ReadAsset J ⟨auditor, ctx.GetStub⟩ s1 id
      = (.ok ⟨a.ID, a.Owner, newValue, a.CreatedBy⟩, s1) := by
  obtain ⟨assetJSON, hmar, hput⟩ := UpdateAsset_ok_inv J ctx s s1 id newValue b a hget hdec hok
  have hget1 := hS s s1 id assetJSON hput
  have hdec1 := hJ b a newValue assetJSON hdec hmar
  exact ⟨⟨assetJSON, hget1, hdec1⟩, by simp [ReadAsset, haud, hget1, hdec1]⟩

/-- Witness of C8, the scenario of the specification: `a1` was created with
value 100 and owner `orgA`; an admin updates it to 250; an auditor then reads
value 250 and the same owner. -/
theorem UpdateAsset_changes_only_value_witness :
    (CreateAsset wireCodec (memContext (caller "x509::admin" "admin")) [] "a1" "orgA" 100).2
      = sampleStore ∧
    ReadAsset wireCodec ⟨caller "x509::auditor" "auditor", memStub⟩
        (UpdateAsset wireCodec (memContext (caller "x509::admin" "admin")) sampleStore "a1" 250).2
        "a1"
      = (.ok ⟨"a1", "orgA", 250, "x509::admin"⟩,
          (UpdateAsset wireCodec (memContext (caller "x509::admin" "admin")) sampleStore
            "a1" 250).2) :=
  ⟨by decide,
   (UpdateAsset_changes_only_value wireCodec (memContext (caller "x509::admin" "admin"))
      sampleStore
      (UpdateAsset wireCodec (memContext (caller "x509::admin" "admin")) sampleStore "a1" 250).2
      "a1" 250 (encodeAsset sampleAsset) sampleAsset (caller "x509::auditor" "auditor")
      wireCodec_reencodesDecoded memStub_readsOwnWrite (by decide) (by decide) (by decide)
      (by decide)).2⟩

/-! ## Listing all assets -/

/-- The loop of `GetAllAssets` on an iterator without iteration errors all of
whose values decode: the decoded assets are appended to the slice in order. -/
theorem collectAssets_all_decode (J : Codec) (kvs : List KV) (decoded acc : List Asset)
    (hdec : kvs.map (fun kv => J.Unmarshal kv.Value) = decoded.map .ok) :
    collectAssets J (kvs.map .ok) acc = .ok (acc ++ decoded) := by
  induction kvs generalizing decoded acc with
  | nil =>
    cases decoded with
    | nil => simp [collectAssets]
    | cons a rest => simp at hdec
  | cons kv rest ih =>
    cases decoded with
    | nil => simp at hdec
    | cons a decoded1 =>
      simp only [List.map_cons, List.cons.injEq] at hdec
      simp only [List.map_cons, collectAssets, hdec.1]
      rw [ih decoded1 (acc ++ [a]) hdec.2]
      simp

/-- The loop of `GetAllAssets` on an iterator without iteration errors one of
whose values does not decode fails with SerializationError. -/
theorem collectAssets_some_undecodable (J : Codec) (kvs : List KV) (acc : List Asset)
    (hbad : ∃ kv ∈ kvs, ∃ err, J.Unmarshal kv.Value = .error err) :
    errorKind (collectAssets J (kvs.map .ok) acc) = some .SerializationError := by
  induction kvs generalizing acc with
  | nil => simp at hbad
  | cons kv rest ih =>
    simp only [List.map_cons, collectAssets]
    cases hkv : J.Unmarshal kv.Value with
    | error err => simp [errorKind]
    | ok a =>
      simp only
      apply ih
      obtain ⟨kv1, hmem, err, herr⟩ := hbad
      rcases List.mem_cons.mp hmem with h | h
      · subst h
        rw [hkv] at herr
        simp at herr
      · exact ⟨kv1, h, err, herr⟩

/-- C9: when the role attribute is missing or is any value other than
`auditor`, `GetAllAssets` fails with AuthorizationError, returns no list and
leaves the store as it was; the result is the same over every stub, so the
store is not scanned. -/
theorem GetAllAssets_non_auditor_fails {σ : Type} (J : Codec) (ctx : TransactionContext σ)
    (s : σ) (role : String) (found : Bool)
    (hrole : ctx.GetClientIdentity.GetAttributeValue "role" = .ok (role, found))
    (hnot : found = false ∨ role ≠ "auditor") :
    GetAllAssets J ctx s
      = (.error ⟨.AuthorizationError, "only auditors can view all assets"⟩, s) ∧
    ∀ stub : ChaincodeStub σ,
      GetAllAssets J ⟨ctx.GetClientIdentity, stub⟩ s = GetAllAssets J ctx s := by
  have key : ∀ stub : ChaincodeStub σ, GetAllAssets J ⟨ctx.GetClientIdentity, stub⟩ s
      = (.error ⟨.AuthorizationError, "only auditors can view all assets"⟩, s) := by
    intro stub
    rcases hnot with h | h
    · simp [GetAllAssets, hrole, h]
    · simp [GetAllAssets, hrole, h]
  exact ⟨key ctx.GetStub, fun stub => (key stub).trans (key ctx.GetStub).symm⟩

/-- Witness of C9: an admin, and a caller without role attribute, over a stub
whose scan would fail. -/
theorem GetAllAssets_non_auditor_fails_witness :
    (failingStub WorldState).GetStateByRange sampleStore "" "" = .error "ledger unavailable" ∧
    GetAllAssets wireCodec ⟨caller "x509::admin" "admin", failingStub WorldState⟩ sampleStore
      = (.error ⟨.AuthorizationError, "only auditors can view all assets"⟩, sampleStore) ∧
    GetAllAssets wireCodec ⟨callerWithoutRole "orgA", failingStub WorldState⟩ sampleStore
      = (.error ⟨.AuthorizationError, "only auditors can view all assets"⟩, sampleStore) :=
  ⟨rfl,
   (GetAllAssets_non_auditor_fails wireCodec ⟨caller "x509::admin" "admin", failingStub WorldState⟩
      sampleStore "admin" true (by decide) (Or.inr (by decide))).1,
   (GetAllAssets_non_auditor_fails wireCodec ⟨callerWithoutRole "orgA", failingStub WorldState⟩
      sampleStore "" false (by decide) (Or.inl rfl)).1⟩

/-- C10: for an auditor, when the full-range scan of the store yields the
entries `kvs` (all its keys, in scan order), `GetAllAssets` returns the decoded
assets of `kvs`, one per entry and in that order, if every value decodes, and
fails with SerializationError, returning no list, if some value does not
decode; the store is left as it was. -/
theorem GetAllAssets_auditor_lists_all {σ : Type} (J : Codec) (ctx : TransactionContext σ)
    (s : σ) (kvs : List KV)
    (hrole : ctx.GetClientIdentity.GetAttributeValue "role" = .ok ("auditor", true))
    (hscan : ctx.GetStub.GetStateByRange s "" "" = .ok (kvs.map .ok)) :
    (∀ decoded : List Asset, kvs.map (fun kv => J.Unmarshal kv.Value) = decoded.map .ok →
      GetAllAssets J ctx s = (.ok decoded, s) ∧ decoded.length = kvs.length) ∧
    ((∃ kv ∈ kvs, ∃ err, J.Unmarshal kv.Value = .error err) →
      errorKind (GetAllAssets J ctx s).1 = some .SerializationError ∧
      succeeded (GetAllAssets J ctx s).1 = false ∧ (GetAllAssets J ctx s).2 = s) := by
  have hrun : GetAllAssets J ctx s = (collectAssets J (kvs.map .ok) [], s) := by
    simp [GetAllAssets, hrole, hscan]
  constructor
  · intro decoded hdec
    constructor
    · rw [hrun, collectAssets_all_decode J kvs decoded [] hdec]
      simp
    · have hlen := congrArg List.length hdec
      simpa using hlen.symm
  · intro hbad
    have hk := collectAssets_some_undecodable J kvs [] hbad
    rw [hrun]
    refine ⟨hk, ?_, rfl⟩
    simp only
    cases hc : collectAssets J (kvs.map .ok) [] with
    | error e => rfl
    | ok l => simp [hc, errorKind] at hk

/-- Witness of C10: an auditor lists a store of two assets, and a store whose
second value does not decode. -/
theorem GetAllAssets_auditor_lists_all_witness :
    (GetAllAssets wireCodec (memContext (caller "x509::auditor" "auditor")) twoAssetStore
        = (.ok [sampleAsset, secondAsset], twoAssetStore) ∧
      [sampleAsset, secondAsset].length = twoAssetStore.length) ∧
    (errorKind (GetAllAssets wireCodec (memContext (caller "x509::auditor" "auditor"))
        corruptStore).1 = some .SerializationError ∧
      succeeded (GetAllAssets wireCodec (memContext (caller "x509::auditor" "auditor"))
        corruptStore).1 = false ∧
      (GetAllAssets wireCodec (memContext (caller "x509::auditor" "auditor")) corruptStore).2
        = corruptStore) :=
  ⟨(GetAllAssets_auditor_lists_all wireCodec (memContext (caller "x509::auditor" "auditor"))
      twoAssetStore [⟨"a1", encodeAsset sampleAsset⟩, ⟨"a2", encodeAsset secondAsset⟩]
      (by decide) (by decide)).1 [sampleAsset, secondAsset] (by decide),
   (GetAllAssets_auditor_lists_all wireCodec (memContext (caller "x509::auditor" "auditor"))
      corruptStore [⟨"a1", encodeAsset sampleAsset⟩, ⟨"zz", [255]⟩]
      (by decide) (by decide)).2
      ⟨⟨"zz", [255]⟩, by decide, "invalid character", by decide⟩⟩

/-! ## Effect of the operations on the world state -/

/-- `AssetExists` leaves the world state as it was. -/
theorem AssetExists_state {σ : Type} (ctx : TransactionContext σ) (s : σ) (id : String) :
    (AssetExists ctx s id).2 = s := by
  unfold AssetExists
  split <;> rfl

/-- `ReadAssetInternal` leaves the world state as it was. -/
theorem ReadAssetInternal_state {σ : Type} (J : Codec) (ctx : TransactionContext σ) (s : σ)
    (id : String) : (ReadAssetInternal J ctx s id).2 = s := by
  unfold ReadAssetInternal
  repeat' split
  all_goals rfl

/-- `ReadAsset` leaves the world state as it was. -/
theorem ReadAsset_state {σ : Type} (J : Codec) (ctx : TransactionContext σ) (s : σ)
    (id : String) : (ReadAsset J ctx s id).2 = s := by
  unfold ReadAsset
  repeat' split
  all_goals rfl

/-- `GetAllAssets` leaves the world state as it was. -/
theorem GetAllAssets_state {σ : Type} (J : Codec) (ctx : TransactionContext σ) (s : σ) :
    (GetAllAssets J ctx s).2 = s := by
  unfold GetAllAssets
  repeat' split
  all_goals rfl

/-- A `CreateAsset` that fails leaves the world state as it was. -/
theorem CreateAsset_failed_state {σ : Type} (J : Codec) (ctx : TransactionContext σ) (s : σ)
    (id owner : String) (value : Int)
    (hfail : succeeded (CreateAsset J ctx s id owner value).1 = false) :
    (CreateAsset J ctx s id owner value).2 = s := by
  revert hfail
  have hex := AssetExists_state ctx s id
  unfold CreateAsset
  repeat' split
  all_goals (try simp_all [succeeded])
  all_goals (repeat' split)
  all_goals simp_all [succeeded]

/-- An `UpdateAsset` that fails leaves the world state as it was. -/
theorem UpdateAsset_failed_state {σ : Type} (J : Codec) (ctx : TransactionContext σ) (s : σ)
    (id : String) (newValue : Int)
    (hfail : succeeded (UpdateAsset J ctx s id newValue).1 = false) :
    (UpdateAsset J ctx s id newValue).2 = s := by
  revert hfail
  have hex := AssetExists_state ctx s id
  have hread := ReadAssetInternal_state J ctx s id
  unfold UpdateAsset
  repeat' split
  all_goals (try simp_all [succeeded])
  all_goals (repeat' split)
  all_goals simp_all [succeeded]

/-- A `DeleteAsset` that fails leaves the world state as it was. -/
theorem DeleteAsset_failed_state {σ : Type} (ctx : TransactionContext σ) (s : σ) (id : String)
    (hfail : succeeded (DeleteAsset ctx s id).1 = false) :
    (DeleteAsset ctx s id).2 = s := by
  revert hfail
  have hex := AssetExists_state ctx s id
  unfold DeleteAsset
  repeat' split
  all_goals simp_all [succeeded]

/-- A result of type `Unit` that succeeded is `ok ()`. -/
theorem eq_ok_of_succeeded {σ : Type} (r : Outcome σ Unit) (h : succeeded r.1 = true) :
    r = (.ok (), r.2) := by
  obtain ⟨res, st⟩ := r
  cases res with
  | error e => simp [succeeded] at h
  | ok u => rfl

/-- A result that did not succeed failed, and conversely. -/
theorem succeeded_eq_false_iff {α : Type} (r : Except Error α) :
    succeeded r = false ↔ ¬ succeeded r = true := by
  cases r <;> simp [succeeded]

/-- A successful `UpdateAsset` was sent by an admin, found a decodable asset at
`id` and wrote, at `id`, the encoding of that asset with `Value` replaced. -/
theorem UpdateAsset_ok_effect {σ : Type} (J : Codec) (ctx : TransactionContext σ) (s s1 : σ)
    (id : String) (newValue : Int)
    (hok : UpdateAsset J ctx s id newValue = (.ok (), s1)) :
    ctx.GetClientIdentity.GetAttributeValue "role" = .ok ("admin", true) ∧
    ∃ b a assetJSON,
      ctx.GetStub.GetState s id = .ok (some b) ∧ J.Unmarshal b = .ok a ∧
      J.Marshal ⟨a.ID, a.Owner, newValue, a.CreatedBy⟩ = .ok assetJSON ∧
      ctx.GetStub.PutState s id assetJSON = .ok s1 := by
  have hrole : ctx.GetClientIdentity.GetAttributeValue "role" = .ok ("admin", true) := by
    unfold UpdateAsset at hok
    split at hok
    · simp at hok
    · rename_i role found hattr
      split at hok
      · simp at hok
      · rename_i hadmin
        simp only [Bool.or_eq_true, Bool.not_eq_true', bne_iff_ne, ne_eq,
          not_or, Bool.not_eq_false, Decidable.not_not] at hadmin
        rw [hattr, hadmin.1, hadmin.2]
  refine ⟨hrole, ?_⟩
  cases hget : ctx.GetStub.GetState s id with
  | error e => simp [UpdateAsset, AssetExists, hrole, hget] at hok
  | ok v =>
    cases v with
    | none => simp [UpdateAsset, AssetExists, hrole, hget] at hok
    | some b =>
      cases hdec : J.Unmarshal b with
      | error e => simp [UpdateAsset, AssetExists, ReadAssetInternal, hrole, hget, hdec] at hok
      | ok a =>
        obtain ⟨assetJSON, hmar, hput⟩ := UpdateAsset_ok_inv J ctx s s1 id newValue b a hget hdec hok
        exact ⟨b, a, assetJSON, rfl, hdec, hmar, hput⟩

/-- A successful `DeleteAsset` was sent by an admin, found a value at `id` and
deleted the key `id`. -/
theorem DeleteAsset_ok_effect {σ : Type} (ctx : TransactionContext σ) (s s1 : σ) (id : String)
    (hok : DeleteAsset ctx s id = (.ok (), s1)) :
    ctx.GetClientIdentity.GetAttributeValue "role" = .ok ("admin", true) ∧
    (∃ b, ctx.GetStub.GetState s id = .ok (some b)) ∧
    ctx.GetStub.DelState s id = .ok s1 := by
  have hrole : ctx.GetClientIdentity.GetAttributeValue "role" = .ok ("admin", true) := by
    unfold DeleteAsset at hok
    split at hok
    · simp at hok
    · rename_i role found hattr
      split at hok
      · simp at hok
      · rename_i hadmin
        simp only [Bool.or_eq_true, Bool.not_eq_true', bne_iff_ne, ne_eq,
          not_or, Bool.not_eq_false, Decidable.not_not] at hadmin
        rw [hattr, hadmin.1, hadmin.2]
  refine ⟨hrole, ?_⟩
  cases hget : ctx.GetStub.GetState s id with
  | error e => simp [DeleteAsset, AssetExists, hrole, hget] at hok
  | ok v =>
    cases v with
    | none => simp [DeleteAsset, AssetExists, hrole, hget] at hok
    | some b =>
      cases hdel : ctx.GetStub.DelState s id with
      | error e => simp [DeleteAsset, AssetExists, hrole, hget, hdel] at hok
      | ok s2 =>
        simp [DeleteAsset, AssetExists, hrole, hget, hdel] at hok
        exact ⟨⟨b, rfl⟩, by rw [hok]⟩

/-- Without the admin role, `CreateAsset` fails. -/
theorem CreateAsset_not_admin_failed {σ : Type} (J : Codec) (ctx : TransactionContext σ) (s : σ)
    (id owner : String) (value : Int) (hno : hasAdminRole ctx.GetClientIdentity = false) :
    succeeded (CreateAsset J ctx s id owner value).1 = false := by
  rw [succeeded_eq_false_iff]
  intro hsucc
  have hok := eq_ok_of_succeeded _ hsucc
  obtain ⟨_, _, _, hrole, _⟩ := CreateAsset_ok_inv J ctx s _ id owner value hok
  simp [hasAdminRole, hrole] at hno

/-- Without the admin role, `UpdateAsset` fails. -/
theorem UpdateAsset_not_admin_failed {σ : Type} (J : Codec) (ctx : TransactionContext σ) (s : σ)
    (id : String) (newValue : Int) (hno : hasAdminRole ctx.GetClientIdentity = false) :
    succeeded (UpdateAsset J ctx s id newValue).1 = false := by
  rw [succeeded_eq_false_iff]
  intro hsucc
  have hok := eq_ok_of_succeeded _ hsucc
  have hrole := (UpdateAsset_ok_effect J ctx s _ id newValue hok).1
  simp [hasAdminRole, hrole] at hno

/-- Without the admin role, `DeleteAsset` fails. -/
theorem DeleteAsset_not_admin_failed {σ : Type} (ctx : TransactionContext σ) (s : σ)
    (id : String) (hno : hasAdminRole ctx.GetClientIdentity = false) :
    succeeded (DeleteAsset ctx s id).1 = false := by
  rw [succeeded_eq_false_iff]
  intro hsucc
  have hok := eq_ok_of_succeeded _ hsucc
  have hrole := (DeleteAsset_ok_effect ctx s _ id hok).1
  simp [hasAdminRole, hrole] at hno

/-- A transaction sent without the admin role leaves the world state as it
was. -/
theorem invoke_not_admin_state {σ : Type} (J : Codec) (ctx : TransactionContext σ) (s : σ)
    (inv : Invocation) (hno : hasAdminRole ctx.GetClientIdentity = false) :
    (invoke J ctx s inv).2 = s := by
  cases inv with
  | InitLedger => rfl
  | CreateAsset id owner value =>
    exact CreateAsset_failed_state J ctx s id owner value
      (CreateAsset_not_admin_failed J ctx s id owner value hno)
  | ReadAsset id => exact ReadAsset_state J ctx s id
  | UpdateAsset id newValue =>
    exact UpdateAsset_failed_state J ctx s id newValue
      (UpdateAsset_not_admin_failed J ctx s id newValue hno)
  | DeleteAsset id =>
    exact DeleteAsset_failed_state ctx s id (DeleteAsset_not_admin_failed ctx s id hno)
  | GetAllAssets => exact GetAllAssets_state J ctx s
  | AssetExists id => exact AssetExists_state ctx s id
  | ReadAssetInternal id => exact ReadAssetInternal_state J ctx s id

/-! ## The in-memory stub satisfies the stub laws -/

/-- A key deleted from the in-memory store is absent. -/
theorem getValue_delValue (s : WorldState) (key : String) :
    getValue (delValue s key) key = none := by
  induction s with
  | nil => simp [delValue, getValue]
  | cons kv rest ih =>
    obtain ⟨k, v⟩ := kv
    by_cases hk : k = key
    · simp [delValue, hk, ih]
    · simp [delValue, getValue, hk, ih]

/-- Writing a key of the in-memory store does not change what is read at another
key. -/
theorem getValue_putValue_of_ne (s : WorldState) (key other : String) (value : Bytes)
    (hne : other ≠ key) : getValue (putValue s key value) other = getValue s other := by
  have hne1 : ¬ key = other := fun h => hne h.symm
  induction s with
  | nil => simp [putValue, getValue, hne1]
  | cons kv rest ih =>
    obtain ⟨k, v⟩ := kv
    by_cases hk : k = key
    · subst hk
      simp [putValue, getValue, hne1]
    · by_cases hlt : key.data < k.data
      · simp [putValue, getValue, hk, hlt, hne1]
      · simp [putValue, getValue, hk, hlt, ih]

/-- Deleting a key of the in-memory store does not change what is read at
another key. -/
theorem getValue_delValue_of_ne (s : WorldState) (key other : String) (hne : other ≠ key) :
    getValue (delValue s key) other = getValue s other := by
  have hne1 : ¬ key = other := fun h => hne h.symm
  induction s with
  | nil => simp [delValue, getValue]
  | cons kv rest ih =>
    obtain ⟨k, v⟩ := kv
    by_cases hk : k = key
    · subst hk
      simp [delValue, getValue, hne1, ih]
    · simp [delValue, getValue, hk, ih]

/-- The in-memory stub reads its own deletes. -/
theorem memStub_readsOwnDelete : memStub.ReadsOwnDelete := by
  intro s s1 key h
  simp only [memStub, Except.ok.injEq] at h
  subst h
  simp [memStub, getValue_delValue]

/-- The in-memory stub writes one key at a time. -/
theorem memStub_writesOneKey : memStub.WritesOneKey := by
  constructor
  · intro s s1 key other value h hne
    simp only [memStub, Except.ok.injEq] at h
    subst h
    simp [memStub, getValue_putValue_of_ne _ _ _ _ hne]
  · intro s s1 key other h hne
    simp only [memStub, Except.ok.injEq] at h
    subst h
    simp [memStub, getValue_delValue_of_ne _ _ _ hne]

/-! ## Deleting, then reading -/

/-- C11: after a successful `DeleteAsset id` (which only an admin can obtain,
and only on a store holding a value at `id`), `AssetExists id` is false and
`ReadAsset id` by any caller that has a role attribute fails with
NotFoundError. The stub is assumed to read its own deletes. -/
theorem DeleteAsset_then_absent {σ : Type} (J : Codec) (ctx : TransactionContext σ) (s s1 : σ)
    (id role : String) (reader : ClientIdentity)
    (hS : ctx.GetStub.ReadsOwnDelete)
    (hreader : reader.GetAttributeValue "role" = .ok (role, true))
    (hok : DeleteAsset ctx s id = (.ok (), s1)) :
    AssetExists ctx s1 id = (.ok false, s1) ∧
    ReadAsset J ⟨reader, ctx.GetStub⟩ s1 id
      = (.error ⟨.NotFoundError, "the asset " ++ id ++ " does not exist"⟩, s1) := by
  have hget := hS s s1 id (DeleteAsset_ok_effect ctx s s1 id hok).2.2
  constructor
  · simp [AssetExists, hget]
  · simp [ReadAsset, hreader, hget]

/-- Witness of C11, the scenario of the specification: an admin deletes `a1`;
then `AssetExists` is false and the owner, reading as a user, gets
NotFoundError. -/
theorem DeleteAsset_then_absent_witness :
    DeleteAsset (memContext (caller "x509::admin" "admin")) sampleStore "a1" = (.ok (), []) ∧
    AssetExists (memContext (caller "x509::admin" "admin")) [] "a1" = (.ok false, []) ∧
    ReadAsset wireCodec ⟨caller "orgA" "user", memStub⟩ [] "a1"
      = (.error ⟨.NotFoundError, "the asset a1 does not exist"⟩, []) :=
  ⟨by decide,
   DeleteAsset_then_absent wireCodec (memContext (caller "x509::admin" "admin")) sampleStore []
    "a1" "user" (caller "orgA" "user") memStub_readsOwnDelete (by decide) (by decide)⟩

/-! ## A missing role attribute -/

/-- C12: with the same identity, stub, store and arguments, `CreateAsset`,
`UpdateAsset` and `DeleteAsset` return the same result and the same store when
the role attribute is absent as when it is present with a value other than
`admin`, and `GetAllAssets` does so for a value other than `auditor`. -/
theorem missing_role_same_as_unauthorized {σ : Type} (J : Codec) (stub : ChaincodeStub σ) (s : σ)
    (absent present : ClientIdentity) (value role : String)
    (hid : absent.GetID = present.GetID)
    (habsent : absent.GetAttributeValue "role" = .ok (value, false))
    (hpresent : present.GetAttributeValue "role" = .ok (role, true)) :
    (role ≠ "admin" →
      (∀ id owner v, CreateAsset J ⟨absent, stub⟩ s id owner v
        = CreateAsset J ⟨present, stub⟩ s id owner v) ∧
      (∀ id v, UpdateAsset J ⟨absent, stub⟩ s id v = UpdateAsset J ⟨present, stub⟩ s id v) ∧
      (∀ id, DeleteAsset ⟨absent, stub⟩ s id = DeleteAsset ⟨present, stub⟩ s id)) ∧
    (role ≠ "auditor" →
      GetAllAssets J ⟨absent, stub⟩ s = GetAllAssets J ⟨present, stub⟩ s) := by
  constructor
  · intro hne
    refine ⟨?_, ?_, ?_⟩
    · intro id owner v
      simp only [CreateAsset, hid, habsent, hpresent]
      cases present.GetID <;> simp [hne]
    · intro id v
      simp [UpdateAsset, habsent, hpresent, hne]
    · intro id
      simp [DeleteAsset, habsent, hpresent, hne]
  · intro hne
    simp [GetAllAssets, habsent, hpresent, hne]

/-- Witness of C12: the same identity without role attribute and with role
`user`, on a store holding `a1`. -/
theorem missing_role_same_as_unauthorized_witness :
    (CreateAsset wireCodec ⟨callerWithoutRole "orgA", memStub⟩ sampleStore "a2" "orgA" 7
      = CreateAsset wireCodec ⟨caller "orgA" "user", memStub⟩ sampleStore "a2" "orgA" 7) ∧
    (UpdateAsset wireCodec ⟨callerWithoutRole "orgA", memStub⟩ sampleStore "a1" 250
      = UpdateAsset wireCodec ⟨caller "orgA" "user", memStub⟩ sampleStore "a1" 250) ∧
    (DeleteAsset ⟨callerWithoutRole "orgA", memStub⟩ sampleStore "a1"
      = DeleteAsset ⟨caller "orgA" "user", memStub⟩ sampleStore "a1") ∧
    (GetAllAssets wireCodec ⟨callerWithoutRole "orgA", memStub⟩ sampleStore
      = GetAllAssets wireCodec ⟨caller "orgA" "user", memStub⟩ sampleStore) :=
  have h := missing_role_same_as_unauthorized wireCodec memStub sampleStore
    (callerWithoutRole "orgA") (caller "orgA" "user") "" "user" (by decide) (by decide) (by decide)
  ⟨(h.1 (by decide)).1 "a2" "orgA" 7, (h.1 (by decide)).2.1 "a1" 250, (h.1 (by decide)).2.2 "a1",
    h.2 (by decide)⟩

/-- C13: when the role attribute is absent, `ReadAsset` fails with the
AuthorizationError `role attribute not found` and leaves the store as it was,
whatever the store holds at `id`; the result is the same over every stub, so the
store is not consulted; and this error differs from the AuthorizationError
returned to a user who fails the ownership check. -/
theorem ReadAsset_missing_role {σ : Type} (J : Codec) (ctx : TransactionContext σ) (s : σ)
    (id value : String)
    (hrole : ctx.GetClientIdentity.GetAttributeValue "role" = .ok (value, false)) :
    ReadAsset J ctx s id = (.error ⟨.AuthorizationError, "role attribute not found"⟩, s) ∧
    (∀ stub : ChaincodeStub σ,
      ReadAsset J ⟨ctx.GetClientIdentity, stub⟩ s id = ReadAsset J ctx s id) ∧
    (∀ (user : TransactionContext σ) (s2 : σ) (id2 c : String) (b : Bytes) (a : Asset),
      user.GetClientIdentity.GetAttributeValue "role" = .ok ("user", true) →
      user.GetClientIdentity.GetID = .ok c →
      user.GetStub.GetState s2 id2 = .ok (some b) → J.Unmarshal b = .ok a → c ≠ a.Owner →
      errorKind (ReadAsset J user s2 id2).1 = some .AuthorizationError ∧
      (ReadAsset J user s2 id2).1 ≠ (ReadAsset J ctx s id).1) := by
  have key : ∀ stub : ChaincodeStub σ, ReadAsset J ⟨ctx.GetClientIdentity, stub⟩ s id
      = (.error ⟨.AuthorizationError, "role attribute not found"⟩, s) := by
    intro stub
    simp [ReadAsset, hrole]
  refine ⟨key ctx.GetStub, fun stub => (key stub).trans (key ctx.GetStub).symm, ?_⟩
  intro user s2 id2 c b a hu hc hget hdec hne
  have hne1 : ¬ a.Owner = c := fun h => hne h.symm
  rw [key ctx.GetStub]
  simp [ReadAsset, hu, hc, hget, hdec, hne1, errorKind]

/-- Witness of C13: a caller without role attribute reads `a1`, held by the
store, and `a2`, not held, over the in-memory stub and over a stub whose reads
fail; a user who is not the owner gets a different error. -/
theorem ReadAsset_missing_role_witness :
    ReadAsset wireCodec (memContext (callerWithoutRole "orgA")) sampleStore "a1"
      = (.error ⟨.AuthorizationError, "role attribute not found"⟩, sampleStore) ∧
    ReadAsset wireCodec (memContext (callerWithoutRole "orgA")) sampleStore "a2"
      = (.error ⟨.AuthorizationError, "role attribute not found"⟩, sampleStore) ∧
    ReadAsset wireCodec ⟨callerWithoutRole "orgA", failingStub WorldState⟩ sampleStore "a1"
      = ReadAsset wireCodec (memContext (callerWithoutRole "orgA")) sampleStore "a1" ∧
    (errorKind (ReadAsset wireCodec (memContext (caller "orgB" "user")) sampleStore "a1").1
        = some .AuthorizationError ∧
      (ReadAsset wireCodec (memContext (caller "orgB" "user")) sampleStore "a1").1
        ≠ (ReadAsset wireCodec (memContext (callerWithoutRole "orgA")) sampleStore "a1").1) :=
  ⟨(ReadAsset_missing_role wireCodec (memContext (callerWithoutRole "orgA")) sampleStore "a1" ""
      (by decide)).1,
   (ReadAsset_missing_role wireCodec (memContext (callerWithoutRole "orgA")) sampleStore "a2" ""
      (by decide)).1,
   (ReadAsset_missing_role wireCodec (memContext (callerWithoutRole "orgA")) sampleStore "a1" ""
      (by decide)).2.1 (failingStub WorldState),
   (ReadAsset_missing_role wireCodec (memContext (callerWithoutRole "orgA")) sampleStore "a1" ""
      (by decide)).2.2 (memContext (caller "orgB" "user")) sampleStore "a1" "orgB"
      (encodeAsset sampleAsset) sampleAsset (by decide) (by decide) (by decide) (by decide)
      (by decide)⟩

/-! ## Failed invocations -/

/-- C14: an operation that returns an error leaves the store as it was. This
holds for `CreateAsset`, `ReadAsset`, `UpdateAsset`, `DeleteAsset` and
`GetAllAssets`, for every codec, context, store and arguments; in particular an
admin's `UpdateAsset` on a value that does not decode fails with
SerializationError and the value is still read at `id` afterwards. -/
theorem failed_invocation_writes_nothing {σ : Type} (J : Codec) (ctx : TransactionContext σ)
    (s : σ) :
    (∀ id owner value, succeeded (CreateAsset J ctx s id owner value).1 = false →
      (CreateAsset J ctx s id owner value).2 = s) ∧
    (∀ id, succeeded (ReadAsset J ctx s id).1 = false → (ReadAsset J ctx s id).2 = s) ∧
    (∀ id newValue, succeeded (UpdateAsset J ctx s id newValue).1 = false →
      (UpdateAsset J ctx s id newValue).2 = s) ∧
    (∀ id, succeeded (DeleteAsset ctx s id).1 = false → (DeleteAsset ctx s id).2 = s) ∧
    (succeeded (GetAllAssets J ctx s).1 = false → (GetAllAssets J ctx s).2 = s) ∧
    (∀ id newValue b err,
      ctx.GetClientIdentity.GetAttributeValue "role" = .ok ("admin", true) →
      ctx.GetStub.GetState s id = .ok (some b) → J.Unmarshal b = .error err →
      UpdateAsset J ctx s id newValue = (.error ⟨.SerializationError, err⟩, s) ∧
      ctx.GetStub.GetState (UpdateAsset J ctx s id newValue).2 id = .ok (some b)) := by
  refine ⟨fun id owner value h => CreateAsset_failed_state J ctx s id owner value h,
    fun id _ => ReadAsset_state J ctx s id,
    fun id newValue h => UpdateAsset_failed_state J ctx s id newValue h,
    fun id h => DeleteAsset_failed_state ctx s id h,
    fun _ => GetAllAssets_state J ctx s, ?_⟩
  intro id newValue b err hrole hget hdec
  have hrun : UpdateAsset J ctx s id newValue = (.error ⟨.SerializationError, err⟩, s) := by
    simp [UpdateAsset, AssetExists, ReadAssetInternal, hrole, hget, hdec]
  exact ⟨hrun, by rw [hrun]; exact hget⟩

/-- Witness of C14: failing invocations on a store with an undecodable value at
`zz`: a create of an existing key, a read of a missing key, an update of the
undecodable value, a delete of a missing key and a listing. -/
theorem failed_invocation_writes_nothing_witness :
    (CreateAsset wireCodec (memContext (caller "x509::admin" "admin")) corruptStore
      "a1" "orgB" 5).2 = corruptStore ∧
    (ReadAsset wireCodec (memContext (caller "orgA" "user")) corruptStore "a2").2
      = corruptStore ∧
    (UpdateAsset wireCodec (memContext (caller "x509::admin" "admin")) corruptStore "zz" 250
      = (.error ⟨.SerializationError, "invalid character"⟩, corruptStore) ∧
     memStub.GetState (UpdateAsset wireCodec (memContext (caller "x509::admin" "admin"))
      corruptStore "zz" 250).2 "zz" = .ok (some [255])) ∧
    (DeleteAsset (memContext (caller "x509::admin" "admin")) corruptStore "a2").2
      = corruptStore ∧
    (GetAllAssets wireCodec (memContext (caller "x509::auditor" "auditor")) corruptStore).2
      = corruptStore :=
  have h := failed_invocation_writes_nothing wireCodec (memContext (caller "x509::admin" "admin"))
    corruptStore
  ⟨h.1 "a1" "orgB" 5 (by decide),
   (failed_invocation_writes_nothing wireCodec (memContext (caller "orgA" "user"))
      corruptStore).2.1 "a2" (by decide),
   h.2.2.2.2.2 "zz" 250 [255] "invalid character" (by decide) (by decide) (by decide),
   h.2.2.2.1 "a2" (by decide),
   (failed_invocation_writes_nothing wireCodec (memContext (caller "x509::auditor" "auditor"))
      corruptStore).2.2.2.2.1 (by decide)⟩

/-! ## The state machine of a key -/

/-- C15: `CreateAsset id` on a store where `id` is present fails and leaves the
store, hence the value at `id`, as it was; `UpdateAsset id` and `DeleteAsset id`
on a store where `id` is absent fail and leave the store as it was; and, over a
stub that reads its own writes and deletes and writes one key at a time, a
transaction changes what is read at a key only as a successful create of that
key when absent, a successful update of that key when present, or a successful
delete of that key when present. -/
theorem key_state_machine {σ : Type} (J : Codec) (ctx : TransactionContext σ) (s : σ)
    (hput : ctx.GetStub.ReadsOwnWrite) (hdel : ctx.GetStub.ReadsOwnDelete)
    (hone : ctx.GetStub.WritesOneKey) :
    (∀ id b owner value, ctx.GetStub.GetState s id = .ok (some b) →
      succeeded (CreateAsset J ctx s id owner value).1 = false ∧
      (CreateAsset J ctx s id owner value).2 = s) ∧
    (∀ id newValue, ctx.GetStub.GetState s id = .ok none →
      succeeded (UpdateAsset J ctx s id newValue).1 = false ∧
      (UpdateAsset J ctx s id newValue).2 = s ∧
      succeeded (DeleteAsset ctx s id).1 = false ∧ (DeleteAsset ctx s id).2 = s) ∧
    (∀ inv key,
      ctx.GetStub.GetState (invoke J ctx s inv).2 key ≠ ctx.GetStub.GetState s key →
      (invoke J ctx s inv).1 = true ∧
      ((∃ owner value b, inv = .CreateAsset key owner value ∧
          ctx.GetStub.GetState s key = .ok none ∧
          ctx.GetStub.GetState (invoke J ctx s inv).2 key = .ok (some b)) ∨
       (∃ newValue b b1, inv = .UpdateAsset key newValue ∧
          ctx.GetStub.GetState s key = .ok (some b) ∧
          ctx.GetStub.GetState (invoke J ctx s inv).2 key = .ok (some b1)) ∨
       (∃ b, inv = .DeleteAsset key ∧
          ctx.GetStub.GetState s key = .ok (some b) ∧
          ctx.GetStub.GetState (invoke J ctx s inv).2 key = .ok none))) := by
  have hcreate : ∀ id b owner value, ctx.GetStub.GetState s id = .ok (some b) →
      succeeded (CreateAsset J ctx s id owner value).1 = false := by
    intro id b owner value hget
    rw [succeeded_eq_false_iff]
    intro hsucc
    obtain ⟨_, _, _, _, hnone, _⟩ :=
      CreateAsset_ok_inv J ctx s _ id owner value (eq_ok_of_succeeded _ hsucc)
    rw [hget] at hnone
    simp at hnone
  have hupdate : ∀ id newValue, ctx.GetStub.GetState s id = .ok none →
      succeeded (UpdateAsset J ctx s id newValue).1 = false := by
    intro id newValue hget
    rw [succeeded_eq_false_iff]
    intro hsucc
    obtain ⟨_, b, _, _, hsome, _⟩ :=
      UpdateAsset_ok_effect J ctx s _ id newValue (eq_ok_of_succeeded _ hsucc)
    rw [hget] at hsome
    simp at hsome
  have hdelete : ∀ id, ctx.GetStub.GetState s id = .ok none →
      succeeded (DeleteAsset ctx s id).1 = false := by
    intro id hget
    rw [succeeded_eq_false_iff]
    intro hsucc
    obtain ⟨_, ⟨b, hsome⟩, _⟩ := DeleteAsset_ok_effect ctx s _ id (eq_ok_of_succeeded _ hsucc)
    rw [hget] at hsome
    simp at hsome
  refine ⟨fun id b owner value hget => ⟨hcreate id b owner value hget,
      CreateAsset_failed_state J ctx s id owner value (hcreate id b owner value hget)⟩,
    fun id newValue hget => ⟨hupdate id newValue hget,
      UpdateAsset_failed_state J ctx s id newValue (hupdate id newValue hget),
      hdelete id hget, DeleteAsset_failed_state ctx s id (hdelete id hget)⟩, ?_⟩
  intro inv key hchange
  cases inv with
  | InitLedger => exact absurd rfl hchange
  | ReadAsset id => exact absurd (by simp only [invoke, ReadAsset_state]) hchange
  | GetAllAssets => exact absurd (by simp only [invoke, GetAllAssets_state]) hchange
  | AssetExists id => exact absurd (by simp only [invoke, AssetExists_state]) hchange
  | ReadAssetInternal id =>
    exact absurd (by simp only [invoke, ReadAssetInternal_state]) hchange
  | CreateAsset id owner value =>
    simp only [invoke] at hchange ⊢
    by_cases hsucc : succeeded (CreateAsset J ctx s id owner value).1 = true
    · obtain ⟨_, assetJSON, _, _, hnone, _, hwrite⟩ :=
        CreateAsset_ok_inv J ctx s _ id owner value (eq_ok_of_succeeded _ hsucc)
      by_cases hkey : key = id
      · subst hkey
        exact ⟨hsucc, Or.inl ⟨owner, value, assetJSON, rfl, hnone, hput _ _ _ _ hwrite⟩⟩
      · exact absurd (hone.1 _ _ _ _ _ hwrite hkey) hchange
    · rw [← succeeded_eq_false_iff] at hsucc
      rw [CreateAsset_failed_state J ctx s id owner value hsucc] at hchange
      exact absurd rfl hchange
  | UpdateAsset id newValue =>
    simp only [invoke] at hchange ⊢
    by_cases hsucc : succeeded (UpdateAsset J ctx s id newValue).1 = true
    · obtain ⟨_, b, _, assetJSON, hsome, _, _, hwrite⟩ :=
        UpdateAsset_ok_effect J ctx s _ id newValue (eq_ok_of_succeeded _ hsucc)
      by_cases hkey : key = id
      · subst hkey
        exact ⟨hsucc, Or.inr (Or.inl ⟨newValue, b, assetJSON, rfl, hsome, hput _ _ _ _ hwrite⟩)⟩
      · exact absurd (hone.1 _ _ _ _ _ hwrite hkey) hchange
    · rw [← succeeded_eq_false_iff] at hsucc
      rw [UpdateAsset_failed_state J ctx s id newValue hsucc] at hchange
      exact absurd rfl hchange
  | DeleteAsset id =>
    simp only [invoke] at hchange ⊢
    by_cases hsucc : succeeded (DeleteAsset ctx s id).1 = true
    · obtain ⟨_, ⟨b, hsome⟩, hwrite⟩ :=
        DeleteAsset_ok_effect ctx s _ id (eq_ok_of_succeeded _ hsucc)
      by_cases hkey : key = id
      · subst hkey
        exact ⟨hsucc, Or.inr (Or.inr ⟨b, rfl, hsome, hdel _ _ _ hwrite⟩)⟩
      · exact absurd (hone.2 _ _ _ _ hwrite hkey) hchange
    · rw [← succeeded_eq_false_iff] at hsucc
      rw [DeleteAsset_failed_state ctx s id hsucc] at hchange
      exact absurd rfl hchange

/-- Witness of C15: on a store holding only `a1`, an admin's create of `a1`
fails, an admin's update and delete of `a2` fail, and the delete of `a1`, which
changes what is read at `a1`, succeeded. -/
theorem key_state_machine_witness :
    (succeeded (CreateAsset wireCodec (memContext (caller "x509::admin" "admin")) sampleStore
        "a1" "orgB" 5).1 = false ∧
      (CreateAsset wireCodec (memContext (caller "x509::admin" "admin")) sampleStore
        "a1" "orgB" 5).2 = sampleStore) ∧
    (succeeded (UpdateAsset wireCodec (memContext (caller "x509::admin" "admin")) sampleStore
        "a2" 250).1 = false ∧
      (UpdateAsset wireCodec (memContext (caller "x509::admin" "admin")) sampleStore
        "a2" 250).2 = sampleStore ∧
      succeeded (DeleteAsset (memContext (caller "x509::admin" "admin")) sampleStore "a2").1
        = false ∧
      (DeleteAsset (memContext (caller "x509::admin" "admin")) sampleStore "a2").2
        = sampleStore) ∧
    (invoke wireCodec (memContext (caller "x509::admin" "admin")) sampleStore
      (.DeleteAsset "a1")).1 = true :=
  have h := key_state_machine wireCodec (memContext (caller "x509::admin" "admin")) sampleStore
    memStub_readsOwnWrite memStub_readsOwnDelete memStub_writesOneKey
  ⟨h.1 "a1" (encodeAsset sampleAsset) "orgB" 5 (by decide), h.2.1 "a2" 250 (by decide),
    (h.2.2 (.DeleteAsset "a1") "a1" (by decide)).1⟩

/-! ## Two creates of the same key -/

/-- C16, as stated, fails: an admin creates `a1` on the empty store, then a
caller with role `user` creates `a1` again. The claim requires the second create
to fail with ConflictError; it fails with AuthorizationError, the role being
checked before the existence of the key. -/
theorem CreateAsset_second_by_non_admin :
    CreateAsset wireCodec (memContext (caller "x509::admin" "admin")) [] "a1" "orgA" 100
      = (.ok (), sampleStore) ∧
    CreateAsset wireCodec (memContext (caller "orgB" "user")) sampleStore "a1" "orgB" 5
      = (.error ⟨.AuthorizationError, "only admin can create assets"⟩, sampleStore) ∧
    errorKind (CreateAsset wireCodec (memContext (caller "orgB" "user")) sampleStore
      "a1" "orgB" 5).1 ≠ some .ConflictError := by
  decide

/-- C16, amended: when two `CreateAsset` with the same `id` are applied one after
the other, by any callers and with any owners and values, they do not both
succeed; if the first succeeds, the second fails and leaves the store as the
first left it, so that the record written by the first is still read at `id`;
the error of the second is ConflictError when its caller has role `admin` and an
identity that resolves. The stub is assumed to read its own writes. -/
theorem CreateAsset_twice {σ : Type} (J : Codec) (stub : ChaincodeStub σ) (s : σ)
    (first second : ClientIdentity) (id owner1 owner2 : String) (value1 value2 : Int)
    (hS : stub.ReadsOwnWrite) :
    ¬ (succeeded (CreateAsset J ⟨first, stub⟩ s id owner1 value1).1 = true ∧
       succeeded (CreateAsset J ⟨second, stub⟩
        (CreateAsset J ⟨first, stub⟩ s id owner1 value1).2 id owner2 value2).1 = true) ∧
    (succeeded (CreateAsset J ⟨first, stub⟩ s id owner1 value1).1 = true →
      succeeded (CreateAsset J ⟨second, stub⟩
        (CreateAsset J ⟨first, stub⟩ s id owner1 value1).2 id owner2 value2).1 = false ∧
      (CreateAsset J ⟨second, stub⟩
        (CreateAsset J ⟨first, stub⟩ s id owner1 value1).2 id owner2 value2).2
        = (CreateAsset J ⟨first, stub⟩ s id owner1 value1).2 ∧
      (∃ creator assetJSON, first.GetID = .ok creator ∧
        J.Marshal ⟨id, owner1, value1, creator⟩ = .ok assetJSON ∧
        stub.GetState (CreateAsset J ⟨second, stub⟩
          (CreateAsset J ⟨first, stub⟩ s id owner1 value1).2 id owner2 value2).2 id
          = .ok (some assetJSON)) ∧
      (∀ c, second.GetID = .ok c → second.GetAttributeValue "role" = .ok ("admin", true) →
        (CreateAsset J ⟨second, stub⟩
          (CreateAsset J ⟨first, stub⟩ s id owner1 value1).2 id owner2 value2).1
          = .error ⟨.ConflictError, "the asset " ++ id ++ " already exists"⟩)) := by
  have main : succeeded (CreateAsset J ⟨first, stub⟩ s id owner1 value1).1 = true →
      succeeded (CreateAsset J ⟨second, stub⟩
        (CreateAsset J ⟨first, stub⟩ s id owner1 value1).2 id owner2 value2).1 = false ∧
      (CreateAsset J ⟨second, stub⟩
        (CreateAsset J ⟨first, stub⟩ s id owner1 value1).2 id owner2 value2).2
        = (CreateAsset J ⟨first, stub⟩ s id owner1 value1).2 ∧
      (∃ creator assetJSON, first.GetID = .ok creator ∧
        J.Marshal ⟨id, owner1, value1, creator⟩ = .ok assetJSON ∧
        stub.GetState (CreateAsset J ⟨second, stub⟩
          (CreateAsset J ⟨first, stub⟩ s id owner1 value1).2 id owner2 value2).2 id
          = .ok (some assetJSON)) ∧
      (∀ c, second.GetID = .ok c → second.GetAttributeValue "role" = .ok ("admin", true) →
        (CreateAsset J ⟨second, stub⟩
          (CreateAsset J ⟨first, stub⟩ s id owner1 value1).2 id owner2 value2).1
          = .error ⟨.ConflictError, "the asset " ++ id ++ " already exists"⟩) := by
    intro h1
    obtain ⟨creator, assetJSON, hid, _, _, hmar, hwrite⟩ :=
      CreateAsset_ok_inv J ⟨first, stub⟩ s _ id owner1 value1 (eq_ok_of_succeeded _ h1)
    generalize (CreateAsset J ⟨first, stub⟩ s id owner1 value1).2 = s1 at hwrite ⊢
    have hget : stub.GetState s1 id = .ok (some assetJSON) := hS s s1 id assetJSON hwrite
    have hfail : succeeded (CreateAsset J ⟨second, stub⟩ s1 id owner2 value2).1 = false := by
      rw [succeeded_eq_false_iff]
      intro h2
      obtain ⟨_, _, _, _, hnone, _⟩ :=
        CreateAsset_ok_inv J ⟨second, stub⟩ s1 _ id owner2 value2 (eq_ok_of_succeeded _ h2)
      simp only at hnone
      rw [hget] at hnone
      simp at hnone
    have hstate := CreateAsset_failed_state J ⟨second, stub⟩ s1 id owner2 value2 hfail
    refine ⟨hfail, hstate, ⟨creator, assetJSON, hid, hmar, by rw [hstate]; exact hget⟩, ?_⟩
    intro c hc hrole
    simp [CreateAsset, AssetExists, hc, hrole, hget]
  exact ⟨fun h => by simpa [h.2] using (main h.1).1, main⟩

/-- Witness of C16 amended: an admin creates `a1` on the empty store, then
another admin creates `a1` again with other arguments. -/
theorem CreateAsset_twice_witness :
    (CreateAsset wireCodec ⟨caller "x509::admin2" "admin", memStub⟩
        (CreateAsset wireCodec ⟨caller "x509::admin" "admin", memStub⟩ [] "a1" "orgA" 100).2
        "a1" "orgB" 5).1
      = .error ⟨.ConflictError, "the asset a1 already exists"⟩ ∧
    (CreateAsset wireCodec ⟨caller "x509::admin2" "admin", memStub⟩
        (CreateAsset wireCodec ⟨caller "x509::admin" "admin", memStub⟩ [] "a1" "orgA" 100).2
        "a1" "orgB" 5).2
      = (CreateAsset wireCodec ⟨caller "x509::admin" "admin", memStub⟩ [] "a1" "orgA" 100).2 :=
  have h := (CreateAsset_twice wireCodec memStub [] (caller "x509::admin" "admin")
    (caller "x509::admin2" "admin") "a1" "orgA" "orgB" 100 5 memStub_readsOwnWrite).2 (by decide)
  ⟨h.2.2.2 "x509::admin2" (by decide) (by decide), h.2.1⟩

/-! ## Who can change the ledger -/

/-- The state after a trace extended by one step. -/
theorem run_append_singleton {σ : Type} (J : Codec) (S : ChaincodeStub σ) (s0 : σ)
    (trace : List Step) (step : Step) :
    run J S s0 (trace ++ [step]) = (invoke J ⟨step.1, S⟩ (run J S s0 trace) step.2).2 := by
  simp [run, List.foldl_append]

/-- A client has the admin role exactly when the attribute `role` is found with
value `admin`. -/
theorem hasAdminRole_iff (client : ClientIdentity) :
    hasAdminRole client = true ↔ client.GetAttributeValue "role" = .ok ("admin", true) := by
  unfold hasAdminRole
  split
  · rename_i role found hattr
    rw [hattr]
    simp only [Bool.and_eq_true, beq_iff_eq, Except.ok.injEq, Prod.mk.injEq]
    exact ⟨fun h => ⟨h.2, h.1⟩, fun h => ⟨h.2, h.1⟩⟩
  · rename_i err hattr
    rw [hattr]
    simp

/-- C17: a transaction whose caller has no role attribute, or one that is not
`admin`, leaves the store as it was, whatever the exported method and its
arguments; consequently, after any trace from a store where nothing is stored,
every value `b` stored at a key was put there by a step of the trace whose
caller had role `admin`: before that step `b` was not the value at the key, and
after it `b` is. -/
theorem only_admin_changes_ledger {σ : Type} (J : Codec) (S : ChaincodeStub σ) :
    (∀ (client : ClientIdentity) (s : σ) (inv : Invocation) (role : String) (found : Bool),
      client.GetAttributeValue "role" = .ok (role, found) → (found = false ∨ role ≠ "admin") →
      (invoke J ⟨client, S⟩ s inv).2 = s) ∧
    (∀ (s0 : σ) (trace : List Step) (key : String) (b : Bytes),
      (∀ k, S.GetState s0 k = .ok none) →
      S.GetState (run J S s0 trace) key = .ok (some b) →
      ∃ pre step post, trace = pre ++ step :: post ∧
        step.1.GetAttributeValue "role" = .ok ("admin", true) ∧
        S.GetState (run J S s0 pre) key ≠ .ok (some b) ∧
        S.GetState (run J S s0 (pre ++ [step])) key = .ok (some b)) := by
  constructor
  · intro client s inv role found hattr hnot
    apply invoke_not_admin_state
    have hno : ¬ hasAdminRole client = true := by
      rw [hasAdminRole_iff, hattr]
      rcases hnot with h | h
      · simp [h]
      · simp [h]
    simpa using hno
  · intro s0 trace key b hempty
    induction trace using List.reverseRecOn with
    | nil =>
      intro hfinal
      simp [run, hempty] at hfinal
    | append_singleton pre step ih =>
      intro hfinal
      by_cases hbefore : S.GetState (run J S s0 pre) key = .ok (some b)
      · obtain ⟨pre1, step1, post1, hsplit, hadmin, hnot, hnow⟩ := ih hbefore
        exact ⟨pre1, step1, post1 ++ [step], by simp [hsplit], hadmin, hnot, hnow⟩
      · refine ⟨pre, step, [], rfl, ?_, hbefore, hfinal⟩
        rw [← hasAdminRole_iff]
        by_contra hno
        have hno1 : hasAdminRole step.1 = false := by simpa using hno
        have hsame := invoke_not_admin_state J ⟨step.1, S⟩ (run J S s0 pre) step.2 hno1
        rw [run_append_singleton, hsame] at hfinal
        exact hbefore hfinal

/-- Witness of C17: on the empty store a user tries to create `a1`, an admin
creates it, an auditor lists. The user left the store unchanged, and the value
stored at `a1` in the end was put there by a step whose caller is an admin. -/
theorem only_admin_changes_ledger_witness :
    (invoke wireCodec ⟨caller "orgA" "user", memStub⟩ [] (.CreateAsset "a1" "orgA" 100)).2 = [] ∧
    ∃ pre step post,
      [(caller "orgA" "user", Invocation.CreateAsset "a1" "orgA" 100),
       (caller "x509::admin" "admin", Invocation.CreateAsset "a1" "orgA" 100),
       (caller "x509::auditor" "auditor", Invocation.GetAllAssets)] = pre ++ step :: post ∧
      step.1.GetAttributeValue "role" = .ok ("admin", true) ∧
      memStub.GetState (run wireCodec memStub [] pre) "a1"
        ≠ .ok (some (encodeAsset sampleAsset)) ∧
      memStub.GetState (run wireCodec memStub [] (pre ++ [step])) "a1"
        = .ok (some (encodeAsset sampleAsset)) :=
  ⟨(only_admin_changes_ledger wireCodec memStub).1 (caller "orgA" "user") []
      (.CreateAsset "a1" "orgA" 100) "user" true (by decide) (Or.inr (by decide)),
   (only_admin_changes_ledger wireCodec memStub).2 []
      [(caller "orgA" "user", Invocation.CreateAsset "a1" "orgA" 100),
       (caller "x509::admin" "admin", Invocation.CreateAsset "a1" "orgA" 100),
       (caller "x509::auditor" "auditor", Invocation.GetAllAssets)]
      "a1" (encodeAsset sampleAsset) (fun _ => rfl) (by decide)⟩

/-! ## Existence of a key -/

/-- C18: `AssetExists id` returns true exactly when the store returns a value
for `id` and false exactly when it returns none, whether or not the value
decodes; so on a key holding bytes that do not decode, `AssetExists` is true, the
`CreateAsset` of an admin (whose identity resolves) fails with ConflictError, and
the `DeleteAsset` of an admin succeeds with the store the stub's delete
returns. -/
theorem AssetExists_ignores_content {σ : Type} (J : Codec) (ctx : TransactionContext σ) (s : σ)
    (id : String) :
    ((AssetExists ctx s id).1 = .ok true ↔ ∃ b, ctx.GetStub.GetState s id = .ok (some b)) ∧
    ((AssetExists ctx s id).1 = .ok false ↔ ctx.GetStub.GetState s id = .ok none) ∧
    (∀ b err, ctx.GetStub.GetState s id = .ok (some b) → J.Unmarshal b = .error err →
      ctx.GetClientIdentity.GetAttributeValue "role" = .ok ("admin", true) →
      AssetExists ctx s id = (.ok true, s) ∧
      (∀ c owner value, ctx.GetClientIdentity.GetID = .ok c →
        CreateAsset J ctx s id owner value
          = (.error ⟨.ConflictError, "the asset " ++ id ++ " already exists"⟩, s)) ∧
      (∀ s1, ctx.GetStub.DelState s id = .ok s1 → DeleteAsset ctx s id = (.ok (), s1))) := by
  refine ⟨?_, ?_, ?_⟩
  · cases hget : ctx.GetStub.GetState s id with
    | error e => simp [AssetExists, hget]
    | ok v => cases v <;> simp [AssetExists, hget]
  · cases hget : ctx.GetStub.GetState s id with
    | error e => simp [AssetExists, hget]
    | ok v => cases v <;> simp [AssetExists, hget]
  · intro b err hget _ hrole
    refine ⟨by simp [AssetExists, hget], ?_, ?_⟩
    · intro c owner value hid
      simp [CreateAsset, AssetExists, hid, hrole, hget]
    · intro s1 hdel
      simp [DeleteAsset, AssetExists, hrole, hget, hdel]

/-- Witness of C18: the key `zz` of `corruptStore` holds bytes that do not
decode. -/
theorem AssetExists_ignores_content_witness :
    wireCodec.Unmarshal [255] = .error "invalid character" ∧
    AssetExists (memContext (caller "x509::admin" "admin")) corruptStore "zz"
      = (.ok true, corruptStore) ∧
    CreateAsset wireCodec (memContext (caller "x509::admin" "admin")) corruptStore "zz" "orgA" 1
      = (.error ⟨.ConflictError, "the asset zz already exists"⟩, corruptStore) ∧
    DeleteAsset (memContext (caller "x509::admin" "admin")) corruptStore "zz"
      = (.ok (), [("a1", encodeAsset sampleAsset)]) :=
  have h := (AssetExists_ignores_content wireCodec (memContext (caller "x509::admin" "admin"))
    corruptStore "zz").2.2 [255] "invalid character" (by decide) (by decide) (by decide)
  ⟨by decide, h.1, h.2.1 "x509::admin" "orgA" 1 (by decide),
    h.2.2 [("a1", encodeAsset sampleAsset)] (by decide)⟩

/-! ## Frame -/

/-- C19: over a stub that writes one key at a time, `CreateAsset id`,
`UpdateAsset id` and `DeleteAsset id` leave what is read at every key other than
`id` as it was, whether they succeed or fail; `ReadAsset`, `GetAllAssets`,
`AssetExists` and `ReadAssetInternal` leave the whole store as it was, whether
they succeed or fail. -/
theorem operations_frame {σ : Type} (J : Codec) (ctx : TransactionContext σ) (s : σ)
    (hone : ctx.GetStub.WritesOneKey) :
    (∀ id other owner value, other ≠ id →
      ctx.GetStub.GetState (CreateAsset J ctx s id owner value).2 other
        = ctx.GetStub.GetState s other) ∧
    (∀ id other newValue, other ≠ id →
      ctx.GetStub.GetState (UpdateAsset J ctx s id newValue).2 other
        = ctx.GetStub.GetState s other) ∧
    (∀ id other, other ≠ id →
      ctx.GetStub.GetState (DeleteAsset ctx s id).2 other = ctx.GetStub.GetState s other) ∧
    (∀ id, (ReadAsset J ctx s id).2 = s) ∧
    (GetAllAssets J ctx s).2 = s ∧
    (∀ id, (AssetExists ctx s id).2 = s) ∧
    (∀ id, (ReadAssetInternal J ctx s id).2 = s) := by
  refine ⟨?_, ?_, ?_, fun id => ReadAsset_state J ctx s id, GetAllAssets_state J ctx s,
    fun id => AssetExists_state ctx s id, fun id => ReadAssetInternal_state J ctx s id⟩
  · intro id other owner value hne
    by_cases hsucc : succeeded (CreateAsset J ctx s id owner value).1 = true
    · obtain ⟨_, _, _, _, _, _, hwrite⟩ :=
        CreateAsset_ok_inv J ctx s _ id owner value (eq_ok_of_succeeded _ hsucc)
      exact hone.1 _ _ _ _ _ hwrite hne
    · rw [← succeeded_eq_false_iff] at hsucc
      rw [CreateAsset_failed_state J ctx s id owner value hsucc]
  · intro id other newValue hne
    by_cases hsucc : succeeded (UpdateAsset J ctx s id newValue).1 = true
    · obtain ⟨_, _, _, _, _, _, _, hwrite⟩ :=
        UpdateAsset_ok_effect J ctx s _ id newValue (eq_ok_of_succeeded _ hsucc)
      exact hone.1 _ _ _ _ _ hwrite hne
    · rw [← succeeded_eq_false_iff] at hsucc
      rw [UpdateAsset_failed_state J ctx s id newValue hsucc]
  · intro id other hne
    by_cases hsucc : succeeded (DeleteAsset ctx s id).1 = true
    · obtain ⟨_, _, hwrite⟩ := DeleteAsset_ok_effect ctx s _ id (eq_ok_of_succeeded _ hsucc)
      exact hone.2 _ _ _ _ hwrite hne
    · rw [← succeeded_eq_false_iff] at hsucc
      rw [DeleteAsset_failed_state ctx s id hsucc]

/-- Witness of C19: on a store holding `a1` and `a2`, an admin creates `a0`,
updates `a1` and deletes `a1`; what is read at `a2` stays the same. -/
theorem operations_frame_witness :
    memStub.GetState (CreateAsset wireCodec (memContext (caller "x509::admin" "admin"))
      twoAssetStore "a0" "orgC" 9).2 "a2" = memStub.GetState twoAssetStore "a2" ∧
    memStub.GetState (UpdateAsset wireCodec (memContext (caller "x509::admin" "admin"))
      twoAssetStore "a1" 250).2 "a2" = memStub.GetState twoAssetStore "a2" ∧
    memStub.GetState (DeleteAsset (memContext (caller "x509::admin" "admin"))
      twoAssetStore "a1").2 "a2" = memStub.GetState twoAssetStore "a2" ∧
    succeeded (DeleteAsset (memContext (caller "x509::admin" "admin")) twoAssetStore "a1").1
      = true :=
  have h := operations_frame wireCodec (memContext (caller "x509::admin" "admin")) twoAssetStore
    memStub_writesOneKey
  ⟨h.1 "a0" "a2" "orgC" 9 (by decide), h.2.1 "a1" "a2" 250 (by decide),
    h.2.2.1 "a1" "a2" (by decide), by decide⟩

/-! ## Reachable stores keep keys and IDs in agreement -/

/-- A value read from the in-memory store is an entry of it. -/
theorem mem_of_getValue (s : WorldState) (key : String) (b : Bytes)
    (h : getValue s key = some b) : (key, b) ∈ s := by
  induction s with
  | nil => simp [getValue] at h
  | cons kv rest ih =>
    obtain ⟨k, v⟩ := kv
    by_cases hk : k = key
    · simp [getValue, hk] at h
      simp [hk, h]
    · simp [getValue, hk] at h
      exact List.mem_cons_of_mem _ (ih h)

/-- An entry of the in-memory store after a write is the entry written or an
entry from before. -/
theorem mem_putValue (s : WorldState) (key : String) (value : Bytes) (kv : String × Bytes)
    (h : kv ∈ putValue s key value) : kv = (key, value) ∨ kv ∈ s := by
  induction s with
  | nil => simpa [putValue] using h
  | cons e rest ih =>
    obtain ⟨k, v⟩ := e
    by_cases hk : k = key
    · simp only [putValue, hk, if_true, List.mem_cons] at h
      rcases h with h | h
      · exact Or.inl h
      · exact Or.inr (List.mem_cons_of_mem _ h)
    · by_cases hlt : key.data < k.data
      · simp only [putValue, hk, hlt, if_true, if_false, List.mem_cons] at h
        rcases h with h | h | h
        · exact Or.inl h
        · exact Or.inr (by simp [h])
        · exact Or.inr (List.mem_cons_of_mem _ h)
      · simp only [putValue, hk, hlt, if_false, List.mem_cons] at h
        rcases h with h | h
        · exact Or.inr (by simp [h])
        · rcases ih h with h1 | h1
          · exact Or.inl h1
          · exact Or.inr (List.mem_cons_of_mem _ h1)

/-- An entry of the in-memory store after a delete is an entry from before. -/
theorem mem_delValue (s : WorldState) (key : String) (kv : String × Bytes)
    (h : kv ∈ delValue s key) : kv ∈ s := by
  induction s with
  | nil => simp [delValue] at h
  | cons e rest ih =>
    obtain ⟨k, v⟩ := e
    by_cases hk : k = key
    · simp only [delValue, hk, if_true] at h
      exact List.mem_cons_of_mem _ (ih h)
    · simp only [delValue, hk, if_false, List.mem_cons] at h
      rcases h with h | h
      · simp [h]
      · exact List.mem_cons_of_mem _ (ih h)

/-- A write keeps the keys of the in-memory store strictly increasing. -/
theorem putValue_sorted (s : WorldState) (key : String) (value : Bytes)
    (h : (s.map Prod.fst).Pairwise (fun k1 k2 => k1.data < k2.data)) :
    ((putValue s key value).map Prod.fst).Pairwise (fun k1 k2 => k1.data < k2.data) := by
  induction s with
  | nil => simp [putValue]
  | cons e rest ih =>
    obtain ⟨k, v⟩ := e
    simp only [List.map_cons, List.pairwise_cons] at h
    obtain ⟨hhead, htail⟩ := h
    by_cases hk : k = key
    · subst hk
      simp only [putValue, if_true, List.map_cons, List.pairwise_cons]
      exact ⟨hhead, htail⟩
    · by_cases hlt : key.data < k.data
      · simp only [putValue, hk, hlt, if_true, if_false, List.map_cons, List.pairwise_cons]
        refine ⟨?_, hhead, htail⟩
        intro x hx
        rcases List.mem_cons.mp hx with hx1 | hx1
        · rw [hx1]
          exact hlt
        · exact lt_trans hlt (hhead x hx1)
      · simp only [putValue, hk, hlt, if_false, List.map_cons, List.pairwise_cons]
        refine ⟨?_, ih htail⟩
        intro x hx
        obtain ⟨kv, hkv, hfst⟩ := List.mem_map.mp hx
        rcases mem_putValue rest key value kv hkv with h1 | h1
        · have hx1 : x = key := by rw [← hfst, h1]
          rw [hx1]
          rcases lt_trichotomy k.data key.data with h2 | h2 | h2
          · exact h2
          · exact absurd (String.ext h2) hk
          · exact absurd h2 hlt
        · exact hhead x (hfst ▸ List.mem_map_of_mem Prod.fst h1)

/-- A delete keeps the keys of the in-memory store strictly increasing. -/
theorem delValue_sorted (s : WorldState) (key : String)
    (h : (s.map Prod.fst).Pairwise (fun k1 k2 => k1.data < k2.data)) :
    ((delValue s key).map Prod.fst).Pairwise (fun k1 k2 => k1.data < k2.data) := by
  induction s with
  | nil => simp [delValue]
  | cons e rest ih =>
    obtain ⟨k, v⟩ := e
    simp only [List.map_cons, List.pairwise_cons] at h
    obtain ⟨hhead, htail⟩ := h
    by_cases hk : k = key
    · simp only [delValue, hk, if_true]
      exact ih htail
    · simp only [delValue, hk, if_false, List.map_cons, List.pairwise_cons]
      refine ⟨?_, ih htail⟩
      intro x hx
      obtain ⟨kv, hkv, hfst⟩ := List.mem_map.mp hx
      exact hhead x (hfst ▸ List.mem_map_of_mem Prod.fst (mem_delValue rest key kv hkv))

/-- Writing, at `key`, a value that decodes to an asset whose `ID` is `key` with
invalid UTF-8 replaced keeps the in-memory store well formed. -/
theorem putValue_wellFormed (J : Codec) (s : WorldState) (key : String) (value : Bytes)
    (a : Asset) (hdec : J.Unmarshal value = .ok a) (hkey : a.ID = toValidUTF8 key)
    (h : WellFormed J s) : WellFormed J (putValue s key value) := by
  refine ⟨putValue_sorted s key value h.1, ?_⟩
  intro kv hkv
  rcases mem_putValue s key value kv hkv with h1 | h1
  · rw [h1]
    exact ⟨a, hdec, hkey⟩
  · exact h.2 kv h1

/-- Deleting a key keeps the in-memory store well formed. -/
theorem delValue_wellFormed (J : Codec) (s : WorldState) (key : String) (h : WellFormed J s) :
    WellFormed J (delValue s key) :=
  ⟨delValue_sorted s key h.1, fun kv hkv => h.2 kv (mem_delValue s key kv hkv)⟩

/-- Over the in-memory stub and a codec that treats strings as `encoding/json`
does, every transaction keeps the store well formed. -/
theorem invoke_wellFormed (J : Codec) (hJ : J.ReplacesInvalidUTF8) (hJ2 : J.ReencodesDecoded)
    (client : ClientIdentity) (s : WorldState) (inv : Invocation) (h : WellFormed J s) :
    WellFormed J (invoke J ⟨client, memStub⟩ s inv).2 := by
  cases inv with
  | InitLedger => exact h
  | ReadAsset id => simpa only [invoke, ReadAsset_state] using h
  | GetAllAssets => simpa only [invoke, GetAllAssets_state] using h
  | AssetExists id => simpa only [invoke, AssetExists_state] using h
  | ReadAssetInternal id => simpa only [invoke, ReadAssetInternal_state] using h
  | CreateAsset id owner value =>
    simp only [invoke]
    by_cases hsucc : succeeded (CreateAsset J ⟨client, memStub⟩ s id owner value).1 = true
    · obtain ⟨creator, assetJSON, _, _, _, hmar, hwrite⟩ :=
        CreateAsset_ok_inv J ⟨client, memStub⟩ s _ id owner value (eq_ok_of_succeeded _ hsucc)
      rw [← Except.ok.inj (show Except.ok (putValue s id assetJSON) = _ from hwrite)]
      exact putValue_wellFormed J s id assetJSON _ (hJ _ _ hmar) rfl h
    · rw [← succeeded_eq_false_iff] at hsucc
      rw [CreateAsset_failed_state J ⟨client, memStub⟩ s id owner value hsucc]
      exact h
  | UpdateAsset id newValue =>
    simp only [invoke]
    by_cases hsucc : succeeded (UpdateAsset J ⟨client, memStub⟩ s id newValue).1 = true
    · obtain ⟨_, b, a, assetJSON, hget, hdec, hmar, hwrite⟩ :=
        UpdateAsset_ok_effect J ⟨client, memStub⟩ s _ id newValue (eq_ok_of_succeeded _ hsucc)
      have hget1 : getValue s id = some b :=
        Except.ok.inj (show Except.ok (getValue s id) = _ from hget)
      obtain ⟨a1, hdec1, hid1⟩ := h.2 (id, b) (mem_of_getValue s id b hget1)
      simp only at hdec1 hid1
      rw [hdec] at hdec1
      simp only [Except.ok.injEq] at hdec1
      rw [← Except.ok.inj (show Except.ok (putValue s id assetJSON) = _ from hwrite)]
      exact putValue_wellFormed J s id assetJSON _ (hJ2 b a newValue assetJSON hdec hmar)
        (by rw [hdec1]; exact hid1) h
    · rw [← succeeded_eq_false_iff] at hsucc
      rw [UpdateAsset_failed_state J ⟨client, memStub⟩ s id newValue hsucc]
      exact h
  | DeleteAsset id =>
    simp only [invoke]
    by_cases hsucc : succeeded (DeleteAsset ⟨client, memStub⟩ s id).1 = true
    · obtain ⟨_, _, hwrite⟩ :=
        DeleteAsset_ok_effect ⟨client, memStub⟩ s _ id (eq_ok_of_succeeded _ hsucc)
      rw [← Except.ok.inj (show Except.ok (delValue s id) = _ from hwrite)]
      exact delValue_wellFormed J s id h
    · rw [← succeeded_eq_false_iff] at hsucc
      rw [DeleteAsset_failed_state ⟨client, memStub⟩ s id hsucc]
      exact h

/-- Over the in-memory stub and a codec that treats strings as `encoding/json`
does, a trace from a well-formed store ends in a well-formed store. -/
theorem run_wellFormed (J : Codec) (hJ : J.ReplacesInvalidUTF8) (hJ2 : J.ReencodesDecoded)
    (trace : List Step) (s0 : WorldState) (h : WellFormed J s0) :
    WellFormed J (run J memStub s0 trace) := by
  induction trace generalizing s0 with
  | nil => exact h
  | cons step rest ih =>
    simp only [run, List.foldl_cons]
    exact ih _ (invoke_wellFormed J hJ hJ2 step.1 s0 step.2 h)

/-- The values of a well-formed store decode, in order, to assets whose IDs are
the keys of the store with invalid UTF-8 replaced. -/
theorem wellFormed_decodes (J : Codec) (s : WorldState)
    (h : ∀ kv ∈ s, ∃ a, J.Unmarshal kv.2 = .ok a ∧ a.ID = toValidUTF8 kv.1) :
    ∃ decoded : List Asset,
      (s.map fun kv => (⟨kv.1, kv.2⟩ : KV)).map (fun kv => J.Unmarshal kv.Value)
        = decoded.map .ok ∧
      decoded.map (fun a => a.ID) = s.map (fun kv => toValidUTF8 kv.1) := by
  induction s with
  | nil => exact ⟨[], rfl, rfl⟩
  | cons e rest ih =>
    obtain ⟨a, hdec, hid⟩ := h e (List.mem_cons_self _ _)
    obtain ⟨decoded, hall, hids⟩ := ih (fun kv hkv => h kv (List.mem_cons_of_mem _ hkv))
    refine ⟨a :: decoded, ?_, ?_⟩
    · simp only [List.map_cons, hdec, List.cons.injEq, true_and]
      exact hall
    · simp only [List.map_cons, hid, hids]

/-- Strictly increasing keys are pairwise distinct. -/
theorem nodup_of_sorted (keys : List String)
    (h : keys.Pairwise (fun k1 k2 => k1.data < k2.data)) : keys.Nodup := by
  refine List.Pairwise.imp ?_ h
  intro k1 k2 hlt heq
  rw [heq] at hlt
  exact lt_irrefl _ hlt

/-- C20, as stated, fails: an admin creates `k\xff` and then `k\xfe`, two ids
that are not valid UTF-8. Both creates succeed and both keys are present, but
each record decodes to an asset with ID `k\xef\xbf\xbd`: the ID differs from the
key, and the two IDs an auditor's listing returns are equal. -/
theorem reachable_store_key_id_disagree :
    run jsonCodec memStub [] invalidKeyTrace
      = [("k\xfe", encodeAsset ⟨"k\xef\xbf\xbd", "orgA", 2, "x509::admin"⟩),
         ("k\xff", encodeAsset ⟨"k\xef\xbf\xbd", "orgA", 1, "x509::admin"⟩)] ∧
    memStub.GetState (run jsonCodec memStub [] invalidKeyTrace) "k\xff"
      = .ok (some (encodeAsset ⟨"k\xef\xbf\xbd", "orgA", 1, "x509::admin"⟩)) ∧
    jsonCodec.Unmarshal (encodeAsset ⟨"k\xef\xbf\xbd", "orgA", 1, "x509::admin"⟩)
      = .ok ⟨"k\xef\xbf\xbd", "orgA", 1, "x509::admin"⟩ ∧
    "k\xef\xbf\xbd" ≠ "k\xff" ∧
    GetAllAssets jsonCodec ⟨caller "x509::auditor" "auditor", memStub⟩
        (run jsonCodec memStub [] invalidKeyTrace)
      = (.ok [⟨"k\xef\xbf\xbd", "orgA", 2, "x509::admin"⟩,
              ⟨"k\xef\xbf\xbd", "orgA", 1, "x509::admin"⟩],
          run jsonCodec memStub [] invalidKeyTrace) ∧
    ¬ (["k\xef\xbf\xbd", "k\xef\xbf\xbd"] : List String).Nodup := by
  decide

/-- C20, amended: over the in-memory store and a codec that treats strings as
`encoding/json` does, in every store reached from the empty store by a trace of
transactions of arbitrary callers, every key that is present holds a value that
decodes to an asset whose `ID` is the key with invalid UTF-8 replaced by U+FFFD,
hence the key itself when the key is valid UTF-8; and `GetAllAssets` by an
auditor succeeds on it, returning assets whose IDs are the keys of the store
with invalid UTF-8 replaced, hence the keys themselves, pairwise distinct, when
the keys present are valid UTF-8. -/
theorem reachable_key_id_agreement (J : Codec) (hJ : J.ReplacesInvalidUTF8)
    (hJ2 : J.ReencodesDecoded) (trace : List Step) :
    (∀ key b, memStub.GetState (run J memStub [] trace) key = .ok (some b) →
      ∃ a, J.Unmarshal b = .ok a ∧ a.ID = toValidUTF8 key ∧
        (validUTF8 key = true → a.ID = key)) ∧
    (∀ auditor : ClientIdentity, auditor.GetAttributeValue "role" = .ok ("auditor", true) →
      ∃ assets : List Asset,
        GetAllAssets J ⟨auditor, memStub⟩ (run J memStub [] trace)
          = (.ok assets, run J memStub [] trace) ∧
        errorKind (GetAllAssets J ⟨auditor, memStub⟩ (run J memStub [] trace)).1
          ≠ some .SerializationError ∧
        assets.map (fun a => a.ID)
          = (run J memStub [] trace).map (fun kv => toValidUTF8 kv.1) ∧
        ((∀ kv ∈ run J memStub [] trace, validUTF8 kv.1 = true) →
          assets.map (fun a => a.ID) = (run J memStub [] trace).map Prod.fst ∧
          (assets.map (fun a => a.ID)).Nodup)) := by
  have hwf : WellFormed J (run J memStub [] trace) :=
    run_wellFormed J hJ hJ2 trace [] ⟨by simp, by simp⟩
  generalize run J memStub [] trace = s at hwf
  constructor
  · intro key b hget
    simp only [memStub, Except.ok.injEq] at hget
    obtain ⟨a, hdec, hid⟩ := hwf.2 (key, b) (mem_of_getValue s key b hget)
    exact ⟨a, hdec, hid, fun hvalid => by rw [hid]; exact toValidUTF8_of_valid key hvalid⟩
  · intro auditor haud
    obtain ⟨decoded, hall, hids⟩ := wellFormed_decodes J s hwf.2
    have hrun : GetAllAssets J ⟨auditor, memStub⟩ s = (.ok decoded, s) := by
      have hscan : memStub.GetStateByRange s "" ""
          = .ok ((s.map fun kv => (⟨kv.1, kv.2⟩ : KV)).map .ok) := by
        simp [memStub, scanRange_full]
      simp only [GetAllAssets, haud, hscan]
      rw [collectAssets_all_decode J _ decoded [] hall]
      simp
    refine ⟨decoded, hrun, ?_, hids, ?_⟩
    · rw [hrun]
      simp [errorKind]
    · intro hvalid
      have hkeys : decoded.map (fun a => a.ID) = s.map Prod.fst := by
        rw [hids]
        exact List.map_congr_left (fun kv hkv => toValidUTF8_of_valid kv.1 (hvalid kv hkv))
      exact ⟨hkeys, by rw [hkeys]; exact nodup_of_sorted _ hwf.1⟩

/-- Witness of C20 amended: after `sampleTrace` the store holds `a1` with value
250; the value at `a1` decodes to an asset with `ID = a1`, and an auditor's
listing succeeds with IDs that are the keys, pairwise distinct. -/
theorem reachable_key_id_agreement_witness :
    run jsonCodec memStub [] sampleTrace
      = [("a1", encodeAsset ⟨"a1", "orgA", 250, "x509::admin"⟩)] ∧
    (∃ a, jsonCodec.Unmarshal (encodeAsset ⟨"a1", "orgA", 250, "x509::admin"⟩) = .ok a ∧
      a.ID = toValidUTF8 "a1" ∧ (validUTF8 "a1" = true → a.ID = "a1")) ∧
    (∃ assets : List Asset,
      GetAllAssets jsonCodec ⟨caller "x509::auditor" "auditor", memStub⟩
          (run jsonCodec memStub [] sampleTrace)
        = (.ok assets, run jsonCodec memStub [] sampleTrace) ∧
      errorKind (GetAllAssets jsonCodec ⟨caller "x509::auditor" "auditor", memStub⟩
          (run jsonCodec memStub [] sampleTrace)).1 ≠ some .SerializationError ∧
      assets.map (fun a => a.ID)
        = (run jsonCodec memStub [] sampleTrace).map (fun kv => toValidUTF8 kv.1) ∧
      ((∀ kv ∈ run jsonCodec memStub [] sampleTrace, validUTF8 kv.1 = true) →
        assets.map (fun a => a.ID) = (run jsonCodec memStub [] sampleTrace).map Prod.fst ∧
        (assets.map (fun a => a.ID)).Nodup)) :=
  ⟨by decide,
   (reachable_key_id_agreement jsonCodec jsonCodec_replacesInvalidUTF8
      jsonCodec_reencodesDecoded sampleTrace).1 "a1"
      (encodeAsset ⟨"a1", "orgA", 250, "x509::admin"⟩) (by decide),
   (reachable_key_id_agreement jsonCodec jsonCodec_replacesInvalidUTF8
      jsonCodec_reencodesDecoded sampleTrace).2
      (caller "x509::auditor" "auditor") (by decide)⟩

end AssetTransfer
